import Mathlib

/-!
Shallow embedding of the toydb storage engine (`toydb/db.py`).

Keys and values cross the Python API as `str` and are utf-8 encoded to
`bytes` before hitting the engine; on the way out they are utf-8 decoded.
utf-8 encoding is injective, so we model API keys and values directly as
their encoded byte strings (`List Nat`, each entry a byte).  Python byte
strings on disk are likewise `List Nat`.

Python exceptions are modelled with `Except String`; the string names the
exception that the corresponding Python line raises.
-/

set_option autoImplicit false

/-- Association-list lookup (model of Python `dict` lookup). -/
def lookupA {α β : Type} [DecidableEq α] (k : α) : List (α × β) → Option β
  | [] => none
  | (k', v) :: rest => if k' = k then some v else lookupA k rest

/-- Association-list insert-or-update, keeping the position of an existing
key (model of Python `dict` assignment, which preserves insertion order). -/
def upsert {α β : Type} [DecidableEq α] (k : α) (v : β) : List (α × β) → List (α × β)
  | [] => [(k, v)]
  | (k', v') :: rest => if k' = k then (k, v) :: rest else (k', v') :: upsert k v rest

/-- Association-list removal of the first entry with the given key
(model of Python `del d[k]` on a duplicate-free dict). -/
def eraseA {α β : Type} [DecidableEq α] (k : α) : List (α × β) → List (α × β)
  | [] => []
  | (k', v') :: rest => if k' = k then rest else (k', v') :: eraseA k rest

/-- Insert into a duplicate-free list viewed as a set
(model of Python `set.add`). -/
def addS {α : Type} [DecidableEq α] (k : α) (l : List α) : List α :=
  if k ∈ l then l else l ++ [k]

theorem lookupA_upsert {α β : Type} [DecidableEq α] (k k' : α) (v : β) (l : List (α × β)) :
    lookupA k' (upsert k v l) = if k = k' then some v else lookupA k' l := by
  induction l with
  | nil => by_cases h : k = k' <;> simp [upsert, lookupA, h]
  | cons p rest ih =>
    obtain ⟨a, b⟩ := p
    by_cases hak : a = k
    · subst hak
      by_cases h : a = k' <;> simp [upsert, lookupA, h]
    · by_cases h : k = k'
      · subst h
        simp [upsert, lookupA, hak, ih]
      · by_cases hak' : a = k'
        · subst hak'
          simp [upsert, lookupA, hak, h]
        · simp [upsert, lookupA, hak, hak', ih, h]

theorem lookupA_upsert_self {α β : Type} [DecidableEq α] (k : α) (v : β) (l : List (α × β)) :
    lookupA k (upsert k v l) = some v := by
  simp [lookupA_upsert]

theorem lookupA_upsert_ne {α β : Type} [DecidableEq α] {k k' : α} (v : β) (l : List (α × β))
    (h : k ≠ k') : lookupA k' (upsert k v l) = lookupA k' l := by
  simp [lookupA_upsert, h]

theorem mem_upsert {α β : Type} [DecidableEq α] {k : α} {v : β} {l : List (α × β)}
    {p : α × β} (h : p ∈ upsert k v l) : p = (k, v) ∨ p ∈ l := by
  induction l with
  | nil => simp [upsert] at h; simp [h]
  | cons q rest ih =>
    obtain ⟨a, b⟩ := q
    by_cases hak : a = k
    · simp [upsert, hak] at h
      rcases h with h | h
      · left; simp [h]
      · right; simp [h]
    · simp [upsert, hak] at h
      rcases h with h | h
      · right; simp [h]
      · rcases ih h with h' | h'
        · left; exact h'
        · right; simp [h']

theorem mem_eraseA {α β : Type} [DecidableEq α] {k : α} {l : List (α × β)}
    {p : α × β} (h : p ∈ eraseA k l) : p ∈ l := by
  induction l with
  | nil => simp [eraseA] at h
  | cons q rest ih =>
    obtain ⟨a, b⟩ := q
    by_cases hak : a = k
    · simp [eraseA, hak] at h
      simp [h]
    · simp [eraseA, hak] at h
      rcases h with h | h
      · simp [h]
      · simp [ih h]

theorem mem_addS {α : Type} [DecidableEq α] {k : α} {l : List α} {x : α}
    (h : x ∈ addS k l) : x = k ∨ x ∈ l := by
  unfold addS at h
  by_cases hk : k ∈ l
  · simp [hk] at h; right; exact h
  · simp [hk] at h
    rcases h with h | h
    · right; exact h
    · left; exact h

/-! ## The record codec (`ToyDBRecord`)

Tags of the type-length-value encoding (`ToyDBType`): `KEY = 0`,
`VALUE = 1`, `TOMBSTONE = 2`. -/

/-- Model of the Python dataclass `ToyDBRecord`: `key` and `value` are byte
strings, `value` is `None` exactly for tombstones as constructed by the code. -/
structure ToyDBRecord where
  key : List Nat
  value : Option (List Nat)
  tombstone : Bool
  deriving DecidableEq, Repr

/-- `ToyDBRecord.size_in_bytes`: the Python property computes
`(2 + len(key)) + (2 + len(value))` unconditionally; when `value` is `None`
(every tombstone) `len(None)` raises `TypeError`, modelled as `none`. -/
def ToyDBRecord.size_in_bytes (r : ToyDBRecord) : Option Nat :=
  match r.value with
  | none => none
  | some v => some ((2 + r.key.length) + (2 + v.length))

/-- The byte string `ToyDBRecord.serialize` produces when it succeeds:
`[KEY, len, key..., VALUE, len, value...]` for a put and
`[TOMBSTONE, len, key...]` for a tombstone. -/
def recBytes (r : ToyDBRecord) : List Nat :=
  if r.tombstone then 2 :: r.key.length :: r.key
  else 0 :: r.key.length :: (r.key ++ 1 :: (r.value.getD []).length :: r.value.getD [])

/-- Model of `ToyDBRecord.serialize`.  `bytes([n])` raises `ValueError` for
`n > 255`, which the code converts to a `ToyDBException`; a put whose `value`
is `None` hits `len(None)` (`TypeError`). The key check runs before the value
check, and nothing is written to disk on failure. -/
def ToyDBRecord.serialize (r : ToyDBRecord) : Except String (List Nat) :=
  if r.tombstone then
    if r.key.length > 255 then .error "ToyDBException: key longer than 255 bytes"
    else .ok (recBytes r)
  else
    if r.key.length > 255 then .error "ToyDBException: key longer than 255 bytes"
    else
      match r.value with
      | none => .error "TypeError: object of type NoneType has no len"
      | some v =>
        if v.length > 255 then .error "ToyDBException: value longer than 255 bytes"
        else .ok (recBytes r)

/-- Error message of the `KEY`-after-`KEY` corruption branch. -/
def keyAfterKeyMsg : String := "ToyDBException: Corrupt DB, KEY after KEY"

/-- Error message of the `VALUE`-without-`KEY` corruption branch. -/
def valueWithoutKeyMsg : String := "ToyDBException: Corrupt DB, VALUE without prior KEY"

/-- Error message of the unknown-tag corruption branch. -/
def unknownTypeMsg : String := "ToyDBException: Corrupt DB, unknown type"

/-- Model of `ToyDBRecord.deserialize` reading from a byte stream.

The Python classmethod reads from a file handle; here the stream is the list
of bytes from the current file position, and the result carries the
unconsumed suffix.  `file.read(1)` at end of file returns `b""`, and
`int.from_bytes(b"")` is `0`, hence the `headD 0`; `file.read(n)` returns at
most `n` bytes, hence `take`.  The `key?` argument is the `key` local of the
Python loop (`none` initially); Python truthiness makes `b""` count as
"no pending key". -/
def deserializeFrom (key? : Option (List Nat)) (s : List Nat) :
    Except String (Option (ToyDBRecord × List Nat)) :=
  match s with
  | [] => .ok none
  | t :: rest =>
    let len := rest.headD 0
    let rest2 := rest.tail
    if t = 0 then
      match key? with
      | some k =>
        if k = [] then deserializeFrom (some (rest2.take len)) (rest2.drop len)
        else .error keyAfterKeyMsg
      | none => deserializeFrom (some (rest2.take len)) (rest2.drop len)
    else if t = 1 then
      match key? with
      | some k =>
        if k = [] then .error valueWithoutKeyMsg
        else .ok (some (⟨k, some (rest2.take len), false⟩, rest2.drop len))
      | none => .error valueWithoutKeyMsg
    else if t = 2 then
      .ok (some (⟨rest2.take len, none, true⟩, rest2.drop len))
    else .error unknownTypeMsg
termination_by s.length
decreasing_by
  all_goals simp [List.length_drop, List.length_tail]; omega

/-- `ToyDBRecord.deserialize` called at a record boundary (no pending key). -/
def ToyDBRecord.deserialize (s : List Nat) : Except String (Option (ToyDBRecord × List Nat)) :=
  deserializeFrom none s

def validRecordB (r : ToyDBRecord) : Bool :=
  r.key ≠ [] && r.key.length ≤ 255 &&
    match r.tombstone, r.value with
    | true, none => true
    | false, some v => v.length ≤ 255
    | _, _ => false

theorem serialize_of_valid {r : ToyDBRecord} (h : validRecordB r) :
    r.serialize = .ok (recBytes r) := by
  rcases r with ⟨k, v, t⟩
  cases t <;> cases v <;> simp_all [validRecordB, ToyDBRecord.serialize]
  all_goals repeat rw [if_neg (by omega)]

theorem recBytes_ne_nil (r : ToyDBRecord) : recBytes r ≠ [] := by
  unfold recBytes
  cases h : r.tombstone <;> simp

theorem deserialize_recBytes {r : ToyDBRecord} (h : validRecordB r) (t : List Nat) :
    deserializeFrom none (recBytes r ++ t) = .ok (some (r, t)) := by
  rcases r with ⟨k, v, tb⟩
  cases tb
  · cases v with
    | none => simp_all [validRecordB]
    | some v =>
      simp only [validRecordB, Bool.and_eq_true, decide_eq_true_eq] at h
      obtain ⟨⟨hk, _⟩, _⟩ := h
      simp only [recBytes, Bool.false_eq_true, if_false, List.cons_append]
      rw [deserializeFrom.eq_def]
      simp only [List.headD_cons, List.tail_cons, if_pos rfl]
      rw [List.append_assoc, List.take_left' rfl, List.drop_left' rfl]
      rw [deserializeFrom.eq_def]
      simp only [List.cons_append, List.headD_cons, List.tail_cons]
      simp [hk, List.take_left' rfl, List.drop_left' rfl]
  · cases v with
    | none =>
      simp only [recBytes, if_true, List.cons_append]
      rw [deserializeFrom.eq_def]
      simp [List.take_left' rfl, List.drop_left' rfl]
    | some v => simp_all [validRecordB]


theorem deserializeFrom_consumes {key? : Option (List Nat)} {s : List Nat}
    {r : ToyDBRecord} {rest : List Nat}
    (h : deserializeFrom key? s = .ok (some (r, rest))) : rest.length < s.length := by
  induction key?, s using deserializeFrom.induct with
  | case1 key? =>
    rw [deserializeFrom.eq_def] at h
    simp at h
  | case2 rest' len rest2 ih =>
    rw [deserializeFrom.eq_def] at h
    simp only [if_pos rfl, reduceIte] at h
    have := ih h
    simp only [len, rest2, List.length_drop, List.length_tail] at this
    simp only [List.length_cons]
    omega
  | case3 rest' k hk =>
    rw [deserializeFrom.eq_def] at h
    simp [hk] at h
  | case4 rest' len rest2 ih =>
    rw [deserializeFrom.eq_def] at h
    simp only [if_pos rfl, reduceIte] at h
    have := ih h
    simp only [len, rest2, List.length_drop, List.length_tail] at this
    simp only [List.length_cons]
    omega
  | case5 rest' h1 =>
    rw [deserializeFrom.eq_def] at h
    simp at h
  | case6 rest' k hk h1 =>
    rw [deserializeFrom.eq_def] at h
    simp [hk] at h
    obtain ⟨h2, h3⟩ := h
    subst h3
    simp only [List.length_drop, List.length_tail, List.length_cons]
    omega
  | case7 rest' h1 =>
    rw [deserializeFrom.eq_def] at h
    simp at h
  | case8 key? rest' h1 h2 =>
    rw [deserializeFrom.eq_def] at h
    simp at h
    obtain ⟨h3, h4⟩ := h
    subst h4
    simp only [List.length_drop, List.length_tail, List.length_cons]
    omega
  | case9 key? t rest' h1 h2 h3 =>
    rw [deserializeFrom.eq_def] at h
    simp [h1, h2, h3] at h

/-- Parse all records of one segment file from the start, the per-file loop
of `ToyDB.iterate` (`while record := await ToyDBRecord.deserialize(file)`). -/
def parseAll (s : List Nat) : Except String (List ToyDBRecord) :=
  match h : deserializeFrom none s with
  | .error e => .error e
  | .ok none => .ok []
  | .ok (some (r, rest)) =>
    match parseAll rest with
    | .error e => .error e
    | .ok rs => .ok (r :: rs)
termination_by s.length
decreasing_by exact deserializeFrom_consumes h

/-- A segment whose bytes are a back-to-back concatenation of valid records. -/
def SegValid (s : List Nat) : Prop :=
  ∃ rs : List ToyDBRecord, (∀ r ∈ rs, validRecordB r) ∧ s = (rs.map recBytes).flatten

theorem parseAll_flatten {rs : List ToyDBRecord} (h : ∀ r ∈ rs, validRecordB r) :
    parseAll ((rs.map recBytes).flatten) = .ok rs := by
  induction rs with
  | nil =>
    rw [parseAll.eq_def]
    split
    · simp_all [deserializeFrom]
    · rfl
    · simp_all [deserializeFrom]
  | cons r rest ih =>
    have hr : validRecordB r := h r (by simp)
    have hrest : ∀ x ∈ rest, validRecordB x := fun x hx => h x (by simp [hx])
    rw [parseAll.eq_def]
    have hd : deserializeFrom none ((List.map recBytes (r :: rest)).flatten)
        = .ok (some (r, (List.map recBytes rest).flatten)) := by
      simp only [List.map_cons, List.flatten_cons]
      exact deserialize_recBytes hr _
    split
    · simp_all
    · simp_all
    · rename_i heq
      rw [hd] at heq
      obtain ⟨h1, h2⟩ := by simpa using heq
      subst h1 h2
      rw [ih hrest]

/-! ## The engine (`ToyDB`)

State of one `ToyDB` instance: `dataFileIndex` is `self.data_file_index`,
`segments` the on-disk contents of `data0.db .. dataN.db` (so file `i`
exists iff `i < segments.length`; in every state the engine reaches,
`segments.length = dataFileIndex + 1`), and `cache` the in-memory offset
index `self.cache`, an association list from file index (standing for the
file path `data{i}.db`) to a per-file association list from key to byte
offset.  `max_file_size` is the constant 255. -/
structure DBState where
  dataFileIndex : Nat
  segments : List (List Nat)
  cache : List (Nat × List (List Nat × Nat))
  deriving DecidableEq, Repr

/-- `self.max_file_size` (artificially low in the source). -/
def maxFileSize : Nat := 255

/-- `self.cache[file].get(key, None)` through the `defaultdict`. -/
def cacheLookup (c : List (Nat × List (List Nat × Nat))) (i : Nat) (k : List Nat) : Option Nat :=
  lookupA k ((lookupA i c).getD [])

/-- `self.cache[file][key] = offset`. -/
def cacheInsert (c : List (Nat × List (List Nat × Nat))) (i : Nat) (k : List Nat)
    (off : Nat) : List (Nat × List (List Nat × Nat)) :=
  upsert i (upsert k off ((lookupA i c).getD [])) c

/-- `self.cache[file] = dict()` (used by `compact`). -/
def cacheClear (c : List (Nat × List (List Nat × Nat))) (i : Nat) :
    List (Nat × List (List Nat × Nat)) :=
  upsert i [] c

/-- Append a serialized record through the active segment, the shared tail of
`ToyDB.set` and `ToyDB.delete`: roll over to a fresh segment when the
projected size exceeds `max_file_size`, record the pre-append offset in the
cache.  (`self.file.exists()` holds for every file the engine tracks.) -/
def appendRecord (db : DBState) (key : List Nat) (sr : List Nat) : DBState :=
  let cur := db.segments.getD db.dataFileIndex []
  if cur.length + sr.length > maxFileSize then
    { dataFileIndex := db.dataFileIndex + 1,
      segments := db.segments ++ [sr],
      cache := cacheInsert db.cache (db.dataFileIndex + 1) key 0 }
  else
    { db with
      segments := db.segments.set db.dataFileIndex (cur ++ sr),
      cache := cacheInsert db.cache db.dataFileIndex key cur.length }

/-- Model of `ToyDB.set`. -/
def ToyDB.set (db : DBState) (key value : List Nat) : Except String DBState :=
  match ToyDBRecord.serialize ⟨key, some value, false⟩ with
  | .error e => .error e
  | .ok sr => .ok (appendRecord db key sr)

/-- Model of `ToyDB.delete`. -/
def ToyDB.delete (db : DBState) (key : List Nat) : Except String DBState :=
  match ToyDBRecord.serialize ⟨key, none, true⟩ with
  | .error e => .error e
  | .ok sr => .ok (appendRecord db key sr)

/-- The cache-hit body of `ToyDB.get`: seek to the offset of file `i` and
deserialize one record; `record` can be `None` (the attribute access then
raises), a tombstone (return `None`), or a put (return the decoded value, a
`None` value raising as well). -/
def readRecordAt (db : DBState) (i off : Nat) : Except String (Option (List Nat)) :=
  match deserializeFrom none ((db.segments.getD i []).drop off) with
  | .error e => .error e
  | .ok none => .error "AttributeError: NoneType has no attribute tombstone"
  | .ok (some (r, _)) =>
    if r.tombstone then .ok none
    else
      match r.value with
      | some v => .ok (some v)
      | none => .error "AttributeError: NoneType has no attribute decode"

/-- `ToyDB.get`'s loop over `files_reversed` from file index `i` down to 0:
on a cache hit read the record there, on a miss continue with the next older
file, returning `None` below file 0. -/
def getFrom (db : DBState) (key : List Nat) : Nat → Except String (Option (List Nat))
  | 0 =>
    match cacheLookup db.cache 0 key with
    | some off => readRecordAt db 0 off
    | none => .ok none
  | i + 1 =>
    match cacheLookup db.cache (i + 1) key with
    | some off => readRecordAt db (i + 1) off
    | none => getFrom db key i

/-- Model of `ToyDB.get`. -/
def ToyDB.get (db : DBState) (key : List Nat) : Except String (Option (List Nat)) :=
  getFrom db key db.dataFileIndex

/-- Model of `ToyDB.__init__` over a directory that already holds the
contiguous segment files `existing` (empty list: fresh directory).  The
ascending probe finds the largest contiguous index; with no `data0.db` an
empty one is created.  The cache starts empty — nothing on disk is scanned. -/
def ToyDB.init (existing : List (List Nat)) : DBState :=
  if existing.isEmpty then
    { dataFileIndex := 0, segments := [[]], cache := [] }
  else
    { dataFileIndex := existing.length - 1, segments := existing, cache := [] }

/-- Error message of `del values[tombstone_key]` when the key is absent. -/
def keyErrorMsg : String := "KeyError: tombstone key not in values"

/-- Error message of `aiofiles.open` on a missing segment file. -/
def fileNotFoundMsg : String := "FileNotFoundError: no such data file"

/-- The scan loop of `ToyDB.compact` (distinct code from
`ToyDBRecord.deserialize`, with the same byte-level reads): builds the
per-segment `values` dict and `tombstones` set.  Note the Python loop does
not reset `current_key` in the `TOMBSTONE` arm, and `del values[key]` raises
`KeyError` when the tombstone's key has no put in this segment.  The Python
`tombstones` set iterates in hash order; the model keeps insertion order
(the one linearisation the proofs rely on). -/
def compactScan (curKey? : Option (List Nat)) (values : List (List Nat × List Nat))
    (tombs : List (List Nat)) (s : List Nat) :
    Except String (List (List Nat × List Nat) × List (List Nat)) :=
  match s with
  | [] => .ok (values, tombs)
  | t :: rest =>
    let len := rest.headD 0
    let rest2 := rest.tail
    if t = 0 then
      match curKey? with
      | some k =>
        if k = [] then compactScan (some (rest2.take len)) values tombs (rest2.drop len)
        else .error keyAfterKeyMsg
      | none => compactScan (some (rest2.take len)) values tombs (rest2.drop len)
    else if t = 1 then
      match curKey? with
      | some k =>
        if k = [] then .error valueWithoutKeyMsg
        else compactScan none (upsert k (rest2.take len) values) (tombs.erase k)
          (rest2.drop len)
      | none => .error valueWithoutKeyMsg
    else if t = 2 then
      let tk := rest2.take len
      if (lookupA tk values).isSome then
        compactScan curKey? (eraseA tk values) (addS tk tombs) (rest2.drop len)
      else .error keyErrorMsg
    else .error unknownTypeMsg
termination_by s.length
decreasing_by
  all_goals simp [List.length_drop, List.length_tail]; omega

/-- Which file `ToyDB.compact` actually reads and rewrites: `if not index`
is true both for `None` and for `0`, so both resolve to the *active*
segment. -/
def compactTarget (db : DBState) (index : Option Nat) : Nat :=
  match index with
  | none => db.dataFileIndex
  | some j => if j = 0 then db.dataFileIndex else j

/-- Model of `ToyDB.compact`.  The surviving puts and then the tombstones
are re-issued through the engine's own `set`/`delete`, which append to the
active segment.  All corruption errors occur during the read phase, before
any mutation. -/
def ToyDB.compact (db : DBState) (index : Option Nat) : Except String DBState :=
  if compactTarget db index < db.segments.length then
    match compactScan none [] [] (db.segments.getD (compactTarget db index) []) with
    | .error e => .error e
    | .ok (values, tombs) => do
      let db2 ← values.foldlM (fun d kv => ToyDB.set d kv.1 kv.2)
        ({ db with
            segments := db.segments.set (compactTarget db index) [],
            cache := cacheClear db.cache (compactTarget db index) })
      tombs.foldlM (fun d k => ToyDB.delete d k) db2
  else .error fileNotFoundMsg

/-- The compactions `ToyDB.compact_all` launches: `compact(i)` for
`i in range(data_file_index)`, with `range` evaluated up front.  The source
runs them through `asyncio.gather` *without serializing them*; this
function executes one particular schedule — each compaction runs to
completion before the next starts, stopping at the first failure (the flag
records whether all succeeded).  The interleaved schedules, in which the
re-issued `set`s of two compactions can race on `byte_offset`, are modelled
separately by `setSync`/`setResume`/`compactAllRaced` below. -/
def compactAllGo (db : DBState) : List Nat → DBState × Bool
  | [] => (db, true)
  | i :: rest =>
    match ToyDB.compact db (some i) with
    | .ok d => compactAllGo d rest
    | .error _ => (db, false)

/-- `ToyDB.compact_all` as an error-propagating operation, again under the
serialized schedule of the source's `asyncio.gather` (see `compactAllGo`). -/
def ToyDB.compact_all (db : DBState) : Except String DBState :=
  (List.range db.dataFileIndex).foldlM (fun d i => ToyDB.compact d (some i)) db

/-- `sum((r.size_in_bytes for r in key_record_mapping.values()))`: the first
tombstone in the mapping hits `len(None)` and raises `TypeError`. -/
def sumSizes : List (List Nat × ToyDBRecord) → Except String Nat
  | [] => .ok 0
  | (_, r) :: rest =>
    match r.size_in_bytes with
    | none => .error "TypeError: object of type NoneType has no len"
    | some n =>
      match sumSizes rest with
      | .error e => .error e
      | .ok m => .ok (n + m)

/-- Writing `key_record_mapping` out to one fresh temp file, in insertion
order: returns the file's bytes and the per-file cache entries
(`new_cache[...][key] = file.tell()` just before each write). -/
def flushPending (pending : List (List Nat × ToyDBRecord)) :
    Except String (List Nat × List (List Nat × Nat)) :=
  pending.foldlM
    (fun acc kr => do
      let sr ← kr.2.serialize
      .ok (acc.1 ++ sr, upsert kr.1 acc.1.length acc.2))
    ([], [])

/-- Intermediate state of the merge scan: the pending key→record mapping and
the temp files flushed so far with their cache entries (`outCache` is keyed
by the final `data{i}.db` index, which equals the file's position). -/
structure MergeSt where
  pending : List (List Nat × ToyDBRecord)
  outFiles : List (List Nat)
  outCache : List (Nat × List (List Nat × Nat))

/-- `record.size_in_bytes` as an expression, `TypeError` on a tombstone. -/
def recSize (r : ToyDBRecord) : Except String Nat :=
  match r.size_in_bytes with
  | none => .error "TypeError: object of type NoneType has no len"
  | some n => .ok n

/-- `size_with_record`, with the size of a replaced pending record of the
same key subtracted (`size_with_record -= ...`). -/
def projectedSize (cur rs : Nat) (old? : Option ToyDBRecord) : Except String Nat :=
  match old? with
  | some old =>
    match old.size_in_bytes with
    | none => .error "TypeError: object of type NoneType has no len"
    | some oldSize => .ok (cur + rs - oldSize)
  | none => .ok (cur + rs)

/-- One record of the merge scan (`async for record in self.iterate()` body):
project the size of the pending file with this record added (replacing a
prior record of the same key), flush on `>= max_file_size`. -/
def mergeStep (st : MergeSt) (r : ToyDBRecord) : Except String MergeSt := do
  let cur ← sumSizes st.pending
  let rs ← recSize r
  let withR ← projectedSize cur rs (lookupA r.key st.pending)
  if withR ≥ maxFileSize then do
    let (bytes, entries) ← flushPending st.pending
    .ok ⟨[(r.key, r)], st.outFiles ++ [bytes],
      st.outCache ++ [(st.outFiles.length, entries)]⟩
  else
    .ok ⟨upsert r.key r st.pending, st.outFiles, st.outCache⟩

/-- The pure tail of `ToyDB.merge` after `compact_all`: scan every record of
every segment in ascending order, fold `mergeStep`, flush the final pending
map (unconditionally — an empty database still writes an empty `tempdata0`),
then drop the old files, rename the temp files and install the new cache and
`data_file_index`.  Any error before `drop` leaves the (already compacted)
state untouched. -/
def mergeCore (db : DBState) : Except String DBState := do
  let recss ← db.segments.mapM parseAll
  let st ← recss.flatten.foldlM mergeStep ⟨[], [], []⟩
  let (bytes, entries) ← flushPending st.pending
  let outFiles := st.outFiles ++ [bytes]
  let outCache := st.outCache ++ [(st.outFiles.length, entries)]
  .ok { dataFileIndex := outFiles.length - 1, segments := outFiles, cache := outCache }

/-- Model of `ToyDB.merge`: `compact_all`, then the scan-and-rewrite. -/
def ToyDB.merge (db : DBState) : Except String DBState := do
  let db1 ← ToyDB.compact_all db
  mergeCore db1

/-- The public mutating operations of the engine. -/
inductive Op where
  | set (key value : List Nat)
  | del (key : List Nat)
  | compact (index : Option Nat)
  | merge
  deriving DecidableEq, Repr

/-- Total per-operation semantics: a raised exception leaves the state the
operation had reached.  `set`, `delete` and `compact` only raise before
mutating anything; `merge` raises either inside one of its `compact` calls
(keeping the successfully compacted prefix) or during the scan, before
`drop` (keeping the state `compact_all` left).  The gathered compactions
inside `merge` execute under the serialized schedule of `compactAllGo`;
`compactAllRaced` below models an interleaved schedule of the same gather. -/
def stepT (db : DBState) : Op → DBState
  | .set k v =>
    match ToyDB.set db k v with
    | .ok d => d
    | .error _ => db
  | .del k =>
    match ToyDB.delete db k with
    | .ok d => d
    | .error _ => db
  | .compact i =>
    match ToyDB.compact db i with
    | .ok d => d
    | .error _ => db
  | .merge =>
    let p := compactAllGo db (List.range db.dataFileIndex)
    if p.2 then
      match mergeCore p.1 with
      | .ok d => d
      | .error _ => p.1
    else p.1

/-- Run a sequence of operations from a state. -/
def runOps (db : DBState) (ops : List Op) : DBState :=
  ops.foldl stepT db

/-! ## The offset-index invariant -/

/-- Structural well-formedness: exactly the files `data0 .. dataN` exist. -/
def WF (db : DBState) : Prop := db.segments.length = db.dataFileIndex + 1

/-- Every segment file is a back-to-back concatenation of valid records. -/
def SegsOK (db : DBState) : Prop := ∀ i, SegValid (db.segments.getD i [])

/-- The offset-index invariant of the claim: every cache entry `(i, k) → off`
points at the serialization of a valid record with key `k` inside file `i`. -/
def CacheOK (db : DBState) : Prop :=
  ∀ i k off, cacheLookup db.cache i k = some off →
    ∃ r rest, validRecordB r ∧ r.key = k ∧
      (db.segments.getD i []).drop off = recBytes r ++ rest

/-- The inductive invariant carried through every operation. -/
def EngineInv (db : DBState) : Prop := WF db ∧ SegsOK db ∧ CacheOK db

theorem lookupA_mem {α β : Type} [DecidableEq α] {k : α} {v : β} {l : List (α × β)}
    (h : lookupA k l = some v) : (k, v) ∈ l := by
  induction l with
  | nil => simp [lookupA] at h
  | cons p rest ih =>
    obtain ⟨a, b⟩ := p
    by_cases hak : a = k
    · subst hak
      simp [lookupA] at h
      simp [h]
    · simp [lookupA, hak] at h
      simp [ih h]

theorem cacheLookup_insert (c : List (Nat × List (List Nat × Nat))) (i j : Nat)
    (k k' : List Nat) (off : Nat) :
    cacheLookup (cacheInsert c i k off) j k' =
      if i = j ∧ k = k' then some off else cacheLookup c j k' := by
  unfold cacheLookup cacheInsert
  by_cases hij : i = j
  · subst hij
    rw [lookupA_upsert_self]
    by_cases hkk : k = k'
    · subst hkk
      simp [lookupA_upsert_self]
    · simp only [Option.getD_some]
      rw [lookupA_upsert_ne _ _ hkk]
      simp [hkk]
  · rw [lookupA_upsert_ne _ _ hij]
    simp [hij]

theorem cacheLookup_clear (c : List (Nat × List (List Nat × Nat))) (i j : Nat)
    (k : List Nat) :
    cacheLookup (cacheClear c i) j k =
      if i = j then none else cacheLookup c j k := by
  unfold cacheLookup cacheClear
  by_cases hij : i = j
  · subst hij
    rw [lookupA_upsert_self]
    simp [lookupA]
  · rw [lookupA_upsert_ne _ _ hij]
    simp [hij]

theorem getD_set_self {l : List (List Nat)} {i : Nat} (x : List Nat)
    (h : i < l.length) : (l.set i x).getD i [] = x := by
  simp [List.getD_eq_getElem?_getD, List.getElem?_set_self', h]

theorem getD_set_ne {l : List (List Nat)} {i j : Nat} (x : List Nat)
    (h : i ≠ j) : (l.set i x).getD j [] = l.getD j [] := by
  simp [List.getD_eq_getElem?_getD, List.getElem?_set_ne h]

theorem getD_append_lt {l t : List (List Nat)} {j : Nat} (h : j < l.length) :
    (l ++ t).getD j [] = l.getD j [] := by
  simp [List.getD_eq_getElem?_getD, List.getElem?_append_left h]

theorem getD_append_self {l : List (List Nat)} {x : List Nat} :
    (l ++ [x]).getD l.length [] = x := by
  simp [List.getD_eq_getElem?_getD]

theorem getD_of_le {l : List (List Nat)} {j : Nat} (h : l.length ≤ j) :
    l.getD j [] = [] := by
  simp [List.getD_eq_getElem?_getD, List.getElem?_eq_none h]

theorem SegValid_nil : SegValid [] := ⟨[], by simp⟩

theorem SegValid_append {s : List Nat} {r : ToyDBRecord} (hs : SegValid s)
    (hr : validRecordB r) : SegValid (s ++ recBytes r) := by
  obtain ⟨rs, hval, rfl⟩ := hs
  exact ⟨rs ++ [r], by
    constructor
    · intro x hx
      rcases List.mem_append.mp hx with h | h
      · exact hval x h
      · simp at h; subst h; exact hr
    · simp⟩

theorem SegValid_single {r : ToyDBRecord} (hr : validRecordB r) :
    SegValid (recBytes r) := by
  have := SegValid_append SegValid_nil hr
  simpa using this

/-- A decomposition `drop off s = recBytes r ++ rest` survives appending more
bytes to `s`, with the tail absorbed into `rest`. -/
theorem drop_decomp_append {s t rest : List Nat} {off : Nat} {r : ToyDBRecord}
    (h : s.drop off = recBytes r ++ rest) :
    (s ++ t).drop off = recBytes r ++ (rest ++ t) := by
  have hoff : off ≤ s.length := by
    by_contra hc
    push_neg at hc
    rw [List.drop_eq_nil_of_le (le_of_lt hc)] at h
    exact recBytes_ne_nil r (List.append_eq_nil.mp h.symm).1
  rw [List.drop_append_of_le_length hoff, h, List.append_assoc]

theorem appendRecord_inv {db : DBState} {r : ToyDBRecord}
    (hInv : EngineInv db) (hr : validRecordB r) :
    EngineInv (appendRecord db r.key (recBytes r)) := by
  obtain ⟨hWF, hSegs, hCache⟩ := hInv
  have hWF' : db.segments.length = db.dataFileIndex + 1 := hWF
  have hIdx : db.dataFileIndex < db.segments.length := by
    rw [hWF']; omega
  unfold appendRecord
  by_cases hroll :
      (db.segments.getD db.dataFileIndex []).length + (recBytes r).length > maxFileSize
  · simp only [hroll, if_pos]
    refine ⟨?_, ?_, ?_⟩
    · unfold WF at hWF ⊢
      simp [hWF]
    · intro i
      by_cases hlt : i < db.segments.length
      · rw [getD_append_lt hlt]
        exact hSegs i
      · push_neg at hlt
        by_cases heq : i = db.segments.length
        · subst heq
          rw [getD_append_self]
          exact SegValid_single hr
        · rw [getD_of_le (by simp; omega)]
          exact SegValid_nil
    · intro i k off h
      rw [cacheLookup_insert] at h
      by_cases hhit : db.dataFileIndex + 1 = i ∧ r.key = k
      · obtain ⟨hi, hk⟩ := hhit
        subst hi hk
        simp only [and_self, if_pos] at h
        obtain rfl : off = 0 := by simpa using h.symm
        refine ⟨r, [], hr, rfl, ?_⟩
        show List.drop 0 ((db.segments ++ [recBytes r]).getD (db.dataFileIndex + 1) []) =
          recBytes r ++ []
        rw [show db.dataFileIndex + 1 = db.segments.length from hWF'.symm, getD_append_self]
        simp
      · rw [if_neg hhit] at h
        obtain ⟨r', rest', hval', hk', hdec'⟩ := hCache i k off h
        refine ⟨r', rest', hval', hk', ?_⟩
        by_cases hlt : i < db.segments.length
        · rw [getD_append_lt hlt]
          exact hdec'
        · push_neg at hlt
          rw [getD_of_le hlt, List.drop_nil] at hdec'
          exact absurd (List.append_eq_nil.mp hdec'.symm).1 (recBytes_ne_nil r')
  · simp only [hroll, if_neg, reduceIte]
    refine ⟨?_, ?_, ?_⟩
    · unfold WF at hWF ⊢
      simp [hWF]
    · intro i
      by_cases heq : i = db.dataFileIndex
      · subst heq
        rw [getD_set_self _ hIdx]
        exact SegValid_append (hSegs _) hr
      · rw [getD_set_ne _ (fun hc => heq hc.symm)]
        exact hSegs i
    · intro i k off h
      rw [cacheLookup_insert] at h
      by_cases hhit : db.dataFileIndex = i ∧ r.key = k
      · obtain ⟨hi, hk⟩ := hhit
        subst hi hk
        simp only [and_self, if_pos] at h
        have hoff : off = (db.segments.getD db.dataFileIndex []).length := by
          simpa using h.symm
        subst hoff
        refine ⟨r, [], hr, rfl, ?_⟩
        rw [getD_set_self _ hIdx]
        simp
      · rw [if_neg hhit] at h
        obtain ⟨r', rest', hval', hk', hdec'⟩ := hCache i k off h
        by_cases heq : i = db.dataFileIndex
        · subst heq
          refine ⟨r', rest' ++ recBytes r, hval', hk', ?_⟩
          rw [getD_set_self _ hIdx]
          exact drop_decomp_append hdec'
        · refine ⟨r', rest', hval', hk', ?_⟩
          rw [getD_set_ne _ (fun hc => heq hc.symm)]
          exact hdec'

theorem set_ok_elim {db db' : DBState} {k v : List Nat}
    (h : ToyDB.set db k v = .ok db') :
    k.length ≤ 255 ∧ v.length ≤ 255 ∧
      db' = appendRecord db k (recBytes ⟨k, some v, false⟩) := by
  unfold ToyDB.set ToyDBRecord.serialize at h
  by_cases hk : k.length > 255
  · simp [hk] at h
  · by_cases hv : v.length > 255
    · simp [hk, hv] at h
    · simp only [hk, hv, reduceIte, if_neg] at h
      refine ⟨by omega, by omega, ?_⟩
      simpa using h.symm

theorem delete_ok_elim {db db' : DBState} {k : List Nat}
    (h : ToyDB.delete db k = .ok db') :
    k.length ≤ 255 ∧ db' = appendRecord db k (recBytes ⟨k, none, true⟩) := by
  unfold ToyDB.delete ToyDBRecord.serialize at h
  by_cases hk : k.length > 255
  · simp [hk] at h
  · simp only [hk, reduceIte, if_neg] at h
    refine ⟨by omega, ?_⟩
    simpa using h.symm

theorem set_inv {db db' : DBState} {k v : List Nat} (hInv : EngineInv db)
    (hk : k ≠ []) (h : ToyDB.set db k v = .ok db') : EngineInv db' := by
  obtain ⟨hkl, hvl, rfl⟩ := set_ok_elim h
  have hr : validRecordB ⟨k, some v, false⟩ := by
    simp [validRecordB, hk, hkl, hvl]
  exact appendRecord_inv hInv hr

theorem delete_inv {db db' : DBState} {k : List Nat} (hInv : EngineInv db)
    (hk : k ≠ []) (h : ToyDB.delete db k = .ok db') : EngineInv db' := by
  obtain ⟨hkl, rfl⟩ := delete_ok_elim h
  have hr : validRecordB ⟨k, none, true⟩ := by
    simp [validRecordB, hk, hkl]
  exact appendRecord_inv hInv hr

theorem foldl_set_inv {l : List (List Nat × List Nat)} {db db' : DBState}
    (hInv : EngineInv db) (hkeys : ∀ p ∈ l, p.1 ≠ [])
    (h : l.foldlM (fun d kv => ToyDB.set d kv.1 kv.2) db = .ok db') :
    EngineInv db' := by
  induction l generalizing db with
  | nil => exact Except.ok.inj h ▸ hInv
  | cons p rest ih =>
    rw [List.foldlM_cons] at h
    cases hstep : ToyDB.set db p.1 p.2 with
    | error e =>
      rw [hstep] at h
      exact Except.noConfusion h
    | ok d1 =>
      rw [hstep] at h
      exact ih (set_inv hInv (hkeys p (by simp)) hstep)
        (fun q hq => hkeys q (by simp [hq])) h

theorem foldl_delete_inv {l : List (List Nat)} {db db' : DBState}
    (hInv : EngineInv db) (hkeys : ∀ p ∈ l, p ≠ [])
    (h : l.foldlM (fun d p => ToyDB.delete d p) db = .ok db') :
    EngineInv db' := by
  induction l generalizing db with
  | nil => exact Except.ok.inj h ▸ hInv
  | cons p rest ih =>
    rw [List.foldlM_cons] at h
    cases hstep : ToyDB.delete db p with
    | error e =>
      rw [hstep] at h
      exact Except.noConfusion h
    | ok d1 =>
      rw [hstep] at h
      exact ih (delete_inv hInv (hkeys p (by simp)) hstep)
        (fun q hq => hkeys q (by simp [hq])) h

/-- The effect of `ToyDB.compact`'s scan loop on one whole valid record. -/
def scanStep (vt : List (List Nat × List Nat) × List (List Nat)) (r : ToyDBRecord) :
    Except String (List (List Nat × List Nat) × List (List Nat)) :=
  if r.tombstone then
    if (lookupA r.key vt.1).isSome then .ok (eraseA r.key vt.1, addS r.key vt.2)
    else .error keyErrorMsg
  else .ok (upsert r.key ((r.value).getD []) vt.1, vt.2.erase r.key)

theorem compactScan_record {r : ToyDBRecord} (hr : validRecordB r)
    (vs : List (List Nat × List Nat)) (ts : List (List Nat)) (rest : List Nat) :
    compactScan none vs ts (recBytes r ++ rest) =
      match scanStep (vs, ts) r with
      | .ok (vs', ts') => compactScan none vs' ts' rest
      | .error e => .error e := by
  rcases r with ⟨k, v, tb⟩
  simp only [validRecordB, Bool.and_eq_true, decide_eq_true_eq] at hr
  obtain ⟨⟨hk, _⟩, hmatch⟩ := hr
  cases tb
  · cases v with
    | none => simp at hmatch
    | some v =>
      simp only [recBytes, Bool.false_eq_true, if_false, List.cons_append]
      rw [compactScan.eq_def]
      simp only [List.headD_cons, List.tail_cons, if_pos rfl]
      rw [List.append_assoc, List.take_left' rfl, List.drop_left' rfl]
      rw [compactScan.eq_def]
      simp only [List.cons_append, List.headD_cons, List.tail_cons]
      simp [hk, List.take_left' rfl, List.drop_left' rfl, scanStep]
  · cases v with
    | none =>
      simp only [recBytes, if_true, List.cons_append]
      rw [compactScan.eq_def]
      simp only [List.headD_cons, List.tail_cons]
      rw [if_neg (show ¬(2 = 0) by decide), if_neg (show ¬(2 = 1) by decide)]
      simp only [if_true]
      rw [List.take_left' rfl, List.drop_left' rfl]
      simp only [scanStep, if_true]
      by_cases hl : (lookupA k vs).isSome
      · simp [hl]
      · simp [hl]
    | some v => simp at hmatch

theorem compactScan_flatten {rs : List ToyDBRecord} (h : ∀ r ∈ rs, validRecordB r)
    (vs : List (List Nat × List Nat)) (ts : List (List Nat)) :
    compactScan none vs ts ((rs.map recBytes).flatten) =
      rs.foldlM scanStep (vs, ts) := by
  induction rs generalizing vs ts with
  | nil =>
    simp only [List.map_nil, List.flatten_nil, List.foldlM_nil]
    rw [compactScan.eq_def]
    rfl
  | cons r rest ih =>
    simp only [List.map_cons, List.flatten_cons]
    rw [compactScan_record (h r (by simp)) vs ts]
    rw [List.foldlM_cons]
    cases hstep : scanStep (vs, ts) r with
    | error e => rfl
    | ok vt =>
      obtain ⟨vs', ts'⟩ := vt
      exact ih (fun x hx => h x (by simp [hx])) vs' ts'

/-- Bounds carried by every entry that the compaction scan accumulates. -/
def EntriesOK (vs : List (List Nat × List Nat)) (ts : List (List Nat)) : Prop :=
  (∀ p ∈ vs, p.1 ≠ [] ∧ p.1.length ≤ 255 ∧ p.2.length ≤ 255) ∧
    (∀ k ∈ ts, k ≠ [] ∧ k.length ≤ 255)

theorem scanStep_entries {vs vs' : List (List Nat × List Nat)} {ts ts' : List (List Nat)}
    {r : ToyDBRecord} (hr : validRecordB r) (hE : EntriesOK vs ts)
    (h : scanStep (vs, ts) r = .ok (vs', ts')) : EntriesOK vs' ts' := by
  obtain ⟨hv, ht⟩ := hE
  rcases r with ⟨k, v, tb⟩
  simp only [validRecordB, Bool.and_eq_true, decide_eq_true_eq] at hr
  obtain ⟨⟨hk, hkl⟩, hmatch⟩ := hr
  cases tb
  · cases v with
    | none => simp at hmatch
    | some v =>
      simp only [scanStep, Bool.false_eq_true, if_false] at h
      obtain ⟨rfl, rfl⟩ := by simpa using h
      constructor
      · intro p hp
        rcases mem_upsert hp with h' | h'
        · subst h'
          exact ⟨hk, hkl, by simpa using hmatch⟩
        · exact hv p h'
      · intro x hx
        exact ht x (List.mem_of_mem_erase hx)
  · cases v with
    | none =>
      simp only [scanStep, if_true] at h
      by_cases hl : (lookupA k vs).isSome
      · simp only [hl, if_pos] at h
        obtain ⟨rfl, rfl⟩ := by simpa using h
        constructor
        · intro p hp
          exact hv p (mem_eraseA hp)
        · intro x hx
          rcases mem_addS hx with h' | h'
          · subst h'
            exact ⟨hk, hkl⟩
          · exact ht x h'
      · simp [hl] at h
    | some v => simp at hmatch

theorem foldl_scanStep_entries {rs : List ToyDBRecord}
    {vs vs' : List (List Nat × List Nat)} {ts ts' : List (List Nat)}
    (hrs : ∀ r ∈ rs, validRecordB r) (hE : EntriesOK vs ts)
    (h : rs.foldlM scanStep (vs, ts) = .ok (vs', ts')) : EntriesOK vs' ts' := by
  induction rs generalizing vs ts with
  | nil =>
    obtain ⟨rfl, rfl⟩ := by simpa using Except.ok.inj h
    exact hE
  | cons r rest ih =>
    rw [List.foldlM_cons] at h
    cases hstep : scanStep (vs, ts) r with
    | error e =>
      rw [hstep] at h
      exact Except.noConfusion h
    | ok vt =>
      obtain ⟨vs1, ts1⟩ := vt
      rw [hstep] at h
      exact ih (fun x hx => hrs x (by simp [hx]))
        (scanStep_entries (hrs r (by simp)) hE hstep) h

theorem except_bind_ok {α β : Type} {F : Except String α} {g : α → Except String β} {b : β}
    (h : F >>= g = .ok b) : ∃ a, F = .ok a ∧ g a = .ok b := by
  cases F with
  | error e => exact Except.noConfusion h
  | ok a => exact ⟨a, rfl, h⟩

theorem compact_inv {db db' : DBState} {index : Option Nat} (hInv : EngineInv db)
    (h : ToyDB.compact db index = .ok db') : EngineInv db' := by
  obtain ⟨hWF, hSegs, hCache⟩ := hInv
  unfold ToyDB.compact at h
  set i := compactTarget db index with hi
  by_cases hlt : i < db.segments.length
  · rw [if_pos hlt] at h
    split at h
    · exact Except.noConfusion h
    · rename_i values tombs heq
      obtain ⟨rs, hrs, hseg⟩ := hSegs i
      rw [hseg, compactScan_flatten hrs] at heq
      have hE : EntriesOK values tombs :=
        foldl_scanStep_entries hrs ⟨by simp, by simp⟩ heq
      have hInv1 : EngineInv
          { db with segments := db.segments.set i [], cache := cacheClear db.cache i } := by
        refine ⟨?_, ?_, ?_⟩
        · unfold WF at hWF ⊢
          simpa using hWF
        · intro j
          by_cases hij : j = i
          · subst hij
            rw [getD_set_self _ hlt]
            exact SegValid_nil
          · rw [getD_set_ne _ (fun hc => hij hc.symm)]
            exact hSegs j
        · intro j k off hl
          rw [cacheLookup_clear] at hl
          by_cases hij : i = j
          · rw [if_pos hij] at hl
            exact Option.noConfusion hl
          · rw [if_neg hij] at hl
            obtain ⟨r', rest', hval', hk', hdec'⟩ := hCache j k off hl
            refine ⟨r', rest', hval', hk', ?_⟩
            rw [getD_set_ne _ hij]
            exact hdec'
      obtain ⟨db2, hfold, hrest⟩ := except_bind_ok h
      have hInv2 : EngineInv db2 :=
        foldl_set_inv hInv1 (fun p hp => (hE.1 p hp).1) hfold
      exact foldl_delete_inv hInv2 (fun p hp => (hE.2 p hp).1) hrest
  · rw [if_neg hlt] at h
    exact Except.noConfusion h

theorem compactAllGo_inv {db : DBState} {l : List Nat} (hInv : EngineInv db) :
    EngineInv (compactAllGo db l).1 := by
  induction l generalizing db with
  | nil => exact hInv
  | cons i rest ih =>
    unfold compactAllGo
    cases hstep : ToyDB.compact db (some i) with
    | error e => exact hInv
    | ok d => exact ih (compact_inv hInv hstep)

theorem SegValid_parseAll {s : List Nat} {rs : List ToyDBRecord} (hs : SegValid s)
    (h : parseAll s = .ok rs) : ∀ r ∈ rs, validRecordB r := by
  obtain ⟨rs0, hval, rfl⟩ := hs
  rw [parseAll_flatten hval] at h
  obtain rfl := Except.ok.inj h
  exact hval

theorem mapM_parseAll_valid {l : List (List Nat)} {recss : List (List ToyDBRecord)}
    (hl : ∀ s ∈ l, SegValid s) (h : l.mapM parseAll = .ok recss) :
    ∀ rs ∈ recss, ∀ r ∈ rs, validRecordB r := by
  induction l generalizing recss with
  | nil =>
    obtain rfl := Except.ok.inj h
    simp
  | cons s rest ih =>
    rw [List.mapM_cons] at h
    obtain ⟨rs1, h1, h2⟩ := except_bind_ok h
    obtain ⟨rss, h3, h4⟩ := except_bind_ok h2
    obtain rfl := Except.ok.inj h4
    intro rs hrs
    rcases List.mem_cons.mp hrs with h' | h'
    · subst h'
      exact SegValid_parseAll (hl s (by simp)) h1
    · exact ih (fun x hx => hl x (by simp [hx])) h3 rs h'

theorem SegsOK_mem {db : DBState} (hSegs : SegsOK db) :
    ∀ s ∈ db.segments, SegValid s := by
  intro s hs
  obtain ⟨i, hi, rfl⟩ := List.mem_iff_getElem.mp hs
  have := hSegs i
  rwa [List.getD_eq_getElem?_getD, List.getElem?_eq_getElem hi, Option.getD_some] at this

/-- The decomposition property the merge flush guarantees for the cache
entries of one freshly written file. -/
def FlushEntriesOK (bytes : List Nat) (entries : List (List Nat × Nat)) : Prop :=
  ∀ k off, lookupA k entries = some off →
    ∃ r rest, validRecordB r ∧ r.key = k ∧ bytes.drop off = recBytes r ++ rest

theorem flush_aux {pending : List (List Nat × ToyDBRecord)}
    {b0 : List Nat} {e0 : List (List Nat × Nat)}
    (hp : ∀ p ∈ pending, validRecordB p.2 ∧ p.2.key = p.1)
    (hb0 : SegValid b0) (he0 : FlushEntriesOK b0 e0) :
    ∃ b e, pending.foldlM
        (fun acc kr => do
          let sr ← kr.2.serialize
          Except.ok (acc.1 ++ sr, upsert kr.1 acc.1.length acc.2))
        (b0, e0) = .ok (b, e) ∧ SegValid b ∧ FlushEntriesOK b e := by
  induction pending generalizing b0 e0 with
  | nil => exact ⟨b0, e0, rfl, hb0, he0⟩
  | cons kr rest ih =>
    obtain ⟨hkr, hkey⟩ := hp kr (by simp)
    rw [List.foldlM_cons, serialize_of_valid hkr]
    have hb1 : SegValid (b0 ++ recBytes kr.2) := SegValid_append hb0 hkr
    have he1 : FlushEntriesOK (b0 ++ recBytes kr.2) (upsert kr.1 b0.length e0) := by
      intro k off hl
      rw [lookupA_upsert] at hl
      by_cases hk : kr.1 = k
      · rw [if_pos hk] at hl
        obtain rfl := Option.some.inj hl
        refine ⟨kr.2, [], hkr, hk ▸ hkey, ?_⟩
        rw [List.drop_left' rfl]
        simp
      · rw [if_neg hk] at hl
        obtain ⟨r, rest', hr, hrk, hdec⟩ := he0 k off hl
        exact ⟨r, rest' ++ recBytes kr.2, hr, hrk, drop_decomp_append hdec⟩
    exact ih (fun p hp' => hp p (by simp [hp'])) hb1 he1

theorem flushPending_ok {pending : List (List Nat × ToyDBRecord)}
    (hp : ∀ p ∈ pending, validRecordB p.2 ∧ p.2.key = p.1) :
    ∃ b e, flushPending pending = .ok (b, e) ∧ SegValid b ∧ FlushEntriesOK b e :=
  flush_aux hp SegValid_nil (fun _ _ hl => by simp [lookupA] at hl)

/-- The invariant carried along the merge scan. -/
def MergeInv (st : MergeSt) : Prop :=
  (∀ p ∈ st.pending, validRecordB p.2 ∧ p.2.key = p.1 ∧ p.2.tombstone = false) ∧
  (∀ j, SegValid (st.outFiles.getD j [])) ∧
  (∀ q ∈ st.outCache, q.1 < st.outFiles.length ∧
    FlushEntriesOK (st.outFiles.getD q.1 []) q.2)

theorem valid_tombstone_value {r : ToyDBRecord} (hr : validRecordB r)
    (ht : r.tombstone = true) : r.value = none := by
  rcases r with ⟨k, v, tb⟩
  simp only at ht
  subst ht
  cases v with
  | none => rfl
  | some v => simp [validRecordB] at hr

theorem mergeStep_inv {st st' : MergeSt} {r : ToyDBRecord} (hr : validRecordB r)
    (hM : MergeInv st) (h : mergeStep st r = .ok st') : MergeInv st' := by
  obtain ⟨hpend, hsegv, hout⟩ := hM
  unfold mergeStep at h
  obtain ⟨cur, hcur, h⟩ := except_bind_ok h
  obtain ⟨rsz, hrsz, h⟩ := except_bind_ok h
  have hrt : r.tombstone = false := by
    cases ht : r.tombstone
    · rfl
    · rw [recSize, ToyDBRecord.size_in_bytes, valid_tombstone_value hr ht] at hrsz
      exact Except.noConfusion hrsz
  obtain ⟨withR, hwithR, h⟩ := except_bind_ok h
  by_cases hflush : withR ≥ maxFileSize
  · rw [if_pos hflush] at h
    obtain ⟨p, hfl, h⟩ := except_bind_ok h
    obtain ⟨bytes, entries⟩ := p
    obtain rfl := (Except.ok.inj h).symm
    obtain ⟨b, e, hfl', hbseg, hbent⟩ :=
      flushPending_ok (fun p hp => ⟨(hpend p hp).1, (hpend p hp).2.1⟩)
    rw [hfl'] at hfl
    obtain ⟨hb, he⟩ := Prod.mk.injEq .. ▸ Except.ok.inj hfl
    subst hb he
    refine ⟨?_, ?_, ?_⟩
    · intro p hp
      simp only [List.mem_singleton] at hp
      subst hp
      exact ⟨hr, rfl, hrt⟩
    · intro j
      by_cases hlt : j < st.outFiles.length
      · rw [getD_append_lt hlt]
        exact hsegv j
      · push_neg at hlt
        by_cases heq : j = st.outFiles.length
        · subst heq
          rw [getD_append_self]
          exact hbseg
        · rw [getD_of_le (by simp; omega)]
          exact SegValid_nil
    · intro q hq
      rcases List.mem_append.mp hq with h' | h'
      · obtain ⟨hlt, hent⟩ := hout q h'
        refine ⟨by simp; omega, ?_⟩
        rwa [getD_append_lt hlt]
      · simp only [List.mem_singleton] at h'
        subst h'
        refine ⟨by simp, ?_⟩
        rw [getD_append_self]
        exact hbent
  · rw [if_neg hflush] at h
    obtain rfl := (Except.ok.inj h).symm
    refine ⟨?_, hsegv, hout⟩
    intro p hp
    rcases mem_upsert hp with h' | h'
    · subst h'
      exact ⟨hr, rfl, hrt⟩
    · exact hpend p h'

theorem foldl_mergeStep_inv {records : List ToyDBRecord} {st0 st : MergeSt}
    (hrs : ∀ r ∈ records, validRecordB r) (hM : MergeInv st0)
    (h : records.foldlM mergeStep st0 = .ok st) : MergeInv st := by
  induction records generalizing st0 with
  | nil =>
    obtain rfl := Except.ok.inj h
    exact hM
  | cons r rest ih =>
    rw [List.foldlM_cons] at h
    obtain ⟨st1, hstep, h⟩ := except_bind_ok h
    exact ih (fun x hx => hrs x (by simp [hx]))
      (mergeStep_inv (hrs r (by simp)) hM hstep) h

theorem mergeCore_inv {db db' : DBState} (hInv : EngineInv db)
    (h : mergeCore db = .ok db') : EngineInv db' := by
  obtain ⟨hWF, hSegs, hCache⟩ := hInv
  unfold mergeCore at h
  obtain ⟨recss, hmapm, h⟩ := except_bind_ok h
  obtain ⟨st, hfold, h⟩ := except_bind_ok h
  obtain ⟨p, hfl, h⟩ := except_bind_ok h
  obtain ⟨bytes, entries⟩ := p
  obtain rfl := (Except.ok.inj h).symm
  have hvalid : ∀ r ∈ recss.flatten, validRecordB r := by
    intro r hrm
    obtain ⟨rs, hrs1, hrs2⟩ := List.mem_flatten.mp hrm
    exact mapM_parseAll_valid (SegsOK_mem hSegs) hmapm rs hrs1 r hrs2
  have hM : MergeInv st :=
    foldl_mergeStep_inv hvalid
      ⟨by simp, fun j => by simp [SegValid_nil], by simp⟩ hfold
  obtain ⟨hpend, hsegv, hout⟩ := hM
  obtain ⟨b, e, hfl', hbseg, hbent⟩ :=
    flushPending_ok (fun p hp => ⟨(hpend p hp).1, (hpend p hp).2.1⟩)
  rw [hfl'] at hfl
  obtain ⟨hb, he⟩ := Prod.mk.injEq .. ▸ Except.ok.inj hfl
  subst hb he
  refine ⟨?_, ?_, ?_⟩
  · unfold WF
    simp
  · intro j
    show SegValid ((st.outFiles ++ [b]).getD j [])
    by_cases hlt : j < st.outFiles.length
    · rw [getD_append_lt hlt]
      exact hsegv j
    · push_neg at hlt
      by_cases heq : j = st.outFiles.length
      · subst heq
        rw [getD_append_self]
        exact hbseg
      · rw [getD_of_le (by simp; omega)]
        exact SegValid_nil
  · intro i k off hl
    unfold cacheLookup at hl
    cases hli : lookupA i (st.outCache ++ [(st.outFiles.length, e)]) with
    | none =>
      rw [hli] at hl
      simp [lookupA] at hl
    | some em =>
      rw [hli] at hl
      simp only [Option.getD_some] at hl
      have hmem := lookupA_mem hli
      rcases List.mem_append.mp hmem with h' | h'
      · obtain ⟨hlt, hent⟩ := hout (i, em) h'
        obtain ⟨r, rest, hr, hrk, hdec⟩ := hent k off hl
        refine ⟨r, rest, hr, hrk, ?_⟩
        show ((st.outFiles ++ [b]).getD i []).drop off = recBytes r ++ rest
        rwa [getD_append_lt hlt]
      · simp only [List.mem_singleton, Prod.mk.injEq] at h'
        obtain ⟨rfl, rfl⟩ := h'
        obtain ⟨r, rest, hr, hrk, hdec⟩ := hbent k off hl
        refine ⟨r, rest, hr, hrk, ?_⟩
        show ((st.outFiles ++ [b]).getD st.outFiles.length []).drop off = recBytes r ++ rest
        rwa [getD_append_self]

/-- Keys crossing the public API are non-empty (spec §3: key length 1..255;
the 255 bound is enforced by the code itself, emptiness is not). -/
def opKeyOK : Op → Prop
  | .set k _ => k ≠ []
  | .del k => k ≠ []
  | .compact _ => True
  | .merge => True

theorem stepT_inv {db : DBState} {op : Op} (hInv : EngineInv db) (hop : opKeyOK op) :
    EngineInv (stepT db op) := by
  cases op with
  | set k v =>
    show EngineInv (match ToyDB.set db k v with | .ok d => d | .error _ => db)
    cases hstep : ToyDB.set db k v with
    | error e => exact hInv
    | ok d => exact set_inv hInv hop hstep
  | del k =>
    show EngineInv (match ToyDB.delete db k with | .ok d => d | .error _ => db)
    cases hstep : ToyDB.delete db k with
    | error e => exact hInv
    | ok d => exact delete_inv hInv hop hstep
  | compact i =>
    show EngineInv (match ToyDB.compact db i with | .ok d => d | .error _ => db)
    cases hstep : ToyDB.compact db i with
    | error e => exact hInv
    | ok d => exact compact_inv hInv hstep
  | merge =>
    show EngineInv
      (if (compactAllGo db (List.range db.dataFileIndex)).2 = true then
        match mergeCore (compactAllGo db (List.range db.dataFileIndex)).1 with
        | .ok d => d
        | .error _ => (compactAllGo db (List.range db.dataFileIndex)).1
      else (compactAllGo db (List.range db.dataFileIndex)).1)
    have h1 : EngineInv (compactAllGo db (List.range db.dataFileIndex)).1 :=
      compactAllGo_inv hInv
    by_cases hflag : (compactAllGo db (List.range db.dataFileIndex)).2 = true
    · rw [if_pos hflag]
      cases hstep : mergeCore (compactAllGo db (List.range db.dataFileIndex)).1 with
      | error e => exact h1
      | ok d => exact mergeCore_inv h1 hstep
    · rw [if_neg hflag]
      exact h1

theorem runOps_inv {db : DBState} {ops : List Op} (hInv : EngineInv db)
    (hops : ∀ op ∈ ops, opKeyOK op) : EngineInv (runOps db ops) := by
  induction ops generalizing db with
  | nil => exact hInv
  | cons op rest ih =>
    exact ih (stepT_inv hInv (hops op (by simp)))
      (fun x hx => hops x (by simp [hx]))

theorem init_empty_inv : EngineInv (ToyDB.init []) := by
  refine ⟨rfl, ?_, ?_⟩
  · intro i
    cases i <;> exact SegValid_nil
  · intro i k off hl
    simp [ToyDB.init, cacheLookup, lookupA] at hl

/-- No cache entries above the active segment (true in every reachable
state; `EngineInv` implies it through `WF`). -/
def CacheBounded (db : DBState) : Prop :=
  ∀ j k, db.dataFileIndex < j → cacheLookup db.cache j k = none

/-- After `set k v`, the record for `k` sits in segment `j` at `off`, no
younger segment's cache mentions `k`, and everything appended later lands in
`tail` or in younger segments. -/
def C1Inv (db : DBState) (k v : List Nat) : Prop :=
  WF db ∧ ∃ j off tail, j ≤ db.dataFileIndex ∧
    (∀ j', j < j' → cacheLookup db.cache j' k = none) ∧
    cacheLookup db.cache j k = some off ∧
    (db.segments.getD j []).drop off = recBytes ⟨k, some v, false⟩ ++ tail

theorem getFrom_of_hit {db : DBState} {k v : List Nat} {j off : Nat} {tail : List Nat}
    (hval : validRecordB ⟨k, some v, false⟩)
    (hnone : ∀ j', j < j' → cacheLookup db.cache j' k = none)
    (hhit : cacheLookup db.cache j k = some off)
    (hdec : (db.segments.getD j []).drop off = recBytes ⟨k, some v, false⟩ ++ tail) :
    ∀ i, j ≤ i → getFrom db k i = .ok (some v) := by
  intro i
  induction i with
  | zero =>
    intro hji
    obtain rfl : j = 0 := Nat.le_zero.mp hji
    rw [List.getD_eq_getElem?_getD] at hdec
    simp only [getFrom, hhit]
    simp [readRecordAt, hdec, deserialize_recBytes hval]
  | succ i ih =>
    intro hji
    by_cases hj : j = i + 1
    · subst hj
      rw [List.getD_eq_getElem?_getD] at hdec
      simp only [getFrom, hhit]
      simp [readRecordAt, hdec, deserialize_recBytes hval]
    · have hlt : j ≤ i := by omega
      simp only [getFrom, hnone (i + 1) (by omega)]
      exact ih hlt

theorem C1Inv_base {db d : DBState} {k v : List Nat} (hWF : WF db) (hCB : CacheBounded db)
    (hstep : ToyDB.set db k v = .ok d) : C1Inv d k v := by
  obtain ⟨hkl, hvl, rfl⟩ := set_ok_elim hstep
  have hWF' : db.segments.length = db.dataFileIndex + 1 := hWF
  unfold appendRecord
  by_cases hroll : (db.segments.getD db.dataFileIndex []).length +
      (recBytes ⟨k, some v, false⟩).length > maxFileSize
  · rw [if_pos hroll]
    refine ⟨by unfold WF; simp [hWF'], db.dataFileIndex + 1, 0, [], le_refl _, ?_, ?_, ?_⟩
    · intro j' hj'
      show cacheLookup (cacheInsert db.cache (db.dataFileIndex + 1) k 0) j' k = none
      rw [cacheLookup_insert, if_neg (by rintro ⟨h1, _⟩; omega)]
      exact hCB j' k (by omega)
    · show cacheLookup (cacheInsert db.cache (db.dataFileIndex + 1) k 0) (db.dataFileIndex + 1) k
        = some 0
      rw [cacheLookup_insert, if_pos ⟨rfl, rfl⟩]
    · show ((db.segments ++ [recBytes ⟨k, some v, false⟩]).getD (db.dataFileIndex + 1) []).drop 0
        = recBytes ⟨k, some v, false⟩ ++ []
      rw [show db.dataFileIndex + 1 = db.segments.length from hWF'.symm, getD_append_self]
      simp
  · rw [if_neg hroll]
    refine ⟨by unfold WF; simp [hWF'], db.dataFileIndex,
      (db.segments.getD db.dataFileIndex []).length, [], le_refl _, ?_, ?_, ?_⟩
    · intro j' hj'
      show cacheLookup (cacheInsert db.cache db.dataFileIndex k
        (db.segments.getD db.dataFileIndex []).length) j' k = none
      rw [cacheLookup_insert, if_neg (by rintro ⟨h1, _⟩; omega)]
      exact hCB j' k (by omega)
    · show cacheLookup (cacheInsert db.cache db.dataFileIndex k
        (db.segments.getD db.dataFileIndex []).length) db.dataFileIndex k
        = some (db.segments.getD db.dataFileIndex []).length
      rw [cacheLookup_insert, if_pos ⟨rfl, rfl⟩]
    · show ((db.segments.set db.dataFileIndex
          (db.segments.getD db.dataFileIndex [] ++ recBytes ⟨k, some v, false⟩)).getD
            db.dataFileIndex []).drop (db.segments.getD db.dataFileIndex []).length
        = recBytes ⟨k, some v, false⟩ ++ []
      rw [getD_set_self _ (by omega), List.drop_left' rfl]
      simp

theorem C1Inv_set {db : DBState} {k v k' v' : List Nat} (hC : C1Inv db k v) (hne : k' ≠ k) :
    C1Inv (stepT db (.set k' v')) k v := by
  obtain ⟨hWF, j, off, tail, hj, hnone, hhit, hdec⟩ := hC
  show C1Inv (match ToyDB.set db k' v' with | .ok d => d | .error _ => db) k v
  cases hstep : ToyDB.set db k' v' with
  | error e => exact ⟨hWF, j, off, tail, hj, hnone, hhit, hdec⟩
  | ok d =>
    obtain ⟨hkl, hvl, rfl⟩ := set_ok_elim hstep
    have hWF' : db.segments.length = db.dataFileIndex + 1 := hWF
    have hjlt : j < db.segments.length := by omega
    unfold appendRecord
    by_cases hroll : (db.segments.getD db.dataFileIndex []).length +
        (recBytes ⟨k', some v', false⟩).length > maxFileSize
    · rw [if_pos hroll]
      refine ⟨by unfold WF; simp [hWF'], j, off, tail, by simp; omega, ?_, ?_, ?_⟩
      · intro j' hj'
        show cacheLookup (cacheInsert db.cache (db.dataFileIndex + 1) k' 0) j' k = none
        rw [cacheLookup_insert, if_neg (by rintro ⟨_, h2⟩; exact hne h2)]
        exact hnone j' hj'
      · show cacheLookup (cacheInsert db.cache (db.dataFileIndex + 1) k' 0) j k = some off
        rw [cacheLookup_insert, if_neg (by rintro ⟨_, h2⟩; exact hne h2)]
        exact hhit
      · show ((db.segments ++ [recBytes ⟨k', some v', false⟩]).getD j []).drop off
          = recBytes ⟨k, some v, false⟩ ++ tail
        rw [getD_append_lt hjlt]
        exact hdec
    · rw [if_neg hroll]
      by_cases hjact : j = db.dataFileIndex
      · subst hjact
        refine ⟨by unfold WF; simp [hWF'], db.dataFileIndex,
          off, tail ++ recBytes ⟨k', some v', false⟩, hj, ?_, ?_, ?_⟩
        · intro j' hj'
          show cacheLookup (cacheInsert db.cache db.dataFileIndex k'
            (db.segments.getD db.dataFileIndex []).length) j' k = none
          rw [cacheLookup_insert, if_neg (by rintro ⟨_, h2⟩; exact hne h2)]
          exact hnone j' hj'
        · show cacheLookup (cacheInsert db.cache db.dataFileIndex k'
            (db.segments.getD db.dataFileIndex []).length) db.dataFileIndex k = some off
          rw [cacheLookup_insert, if_neg (by rintro ⟨_, h2⟩; exact hne h2)]
          exact hhit
        · show ((db.segments.set db.dataFileIndex
              (db.segments.getD db.dataFileIndex [] ++
                recBytes ⟨k', some v', false⟩)).getD db.dataFileIndex []).drop off
            = recBytes ⟨k, some v, false⟩ ++ (tail ++ recBytes ⟨k', some v', false⟩)
          rw [getD_set_self _ hjlt]
          exact drop_decomp_append hdec
      · refine ⟨by unfold WF; simp [hWF'], j, off, tail, hj, ?_, ?_, ?_⟩
        · intro j' hj'
          show cacheLookup (cacheInsert db.cache db.dataFileIndex k'
            (db.segments.getD db.dataFileIndex []).length) j' k = none
          rw [cacheLookup_insert, if_neg (by rintro ⟨_, h2⟩; exact hne h2)]
          exact hnone j' hj'
        · show cacheLookup (cacheInsert db.cache db.dataFileIndex k'
            (db.segments.getD db.dataFileIndex []).length) j k = some off
          rw [cacheLookup_insert, if_neg (by rintro ⟨_, h2⟩; exact hne h2)]
          exact hhit
        · show ((db.segments.set db.dataFileIndex
              (db.segments.getD db.dataFileIndex [] ++ recBytes ⟨k', some v', false⟩)).getD
                j []).drop off = recBytes ⟨k, some v, false⟩ ++ tail
          rw [getD_set_ne _ (fun hc => hjact hc.symm)]
          exact hdec

/-- Under the serialized discipline the spec mandates for `compact_all`
(running the gathered compactions to completion one after the other,
instead of the source's unserialized `asyncio.gather`): after any sequence
of `set`, `delete`, `compact` and `merge` operations from a fresh database,
with the API keys non-empty, every offset-index entry `(S, k) → off` points
at a record whose key is `k`.  This isolates the C8 failure below to the
concurrency: the sequential semantics does satisfy the invariant. -/
theorem serializedCompactAll_index_invariant (ops : List Op)
    (hops : ∀ op ∈ ops, opKeyOK op) (i : Nat) (k : List Nat) (off : Nat)
    (h : cacheLookup (runOps (ToyDB.init []) ops).cache i k = some off) :
    ∃ r rest, ToyDBRecord.deserialize
        (((runOps (ToyDB.init []) ops).segments.getD i []).drop off)
        = .ok (some (r, rest)) ∧ r.key = k := by
  have hInv := runOps_inv init_empty_inv hops
  obtain ⟨r, rest, hr, hrk, hdec⟩ := hInv.2.2 i k off h
  refine ⟨r, rest, ?_, hrk⟩
  rw [ToyDBRecord.deserialize, hdec]
  exact deserialize_recBytes hr rest

theorem serializedCompactAll_index_example :
    ∃ r rest, ToyDBRecord.deserialize
        (((runOps (ToyDB.init []) [Op.set [97] [120], Op.del [97]]).segments.getD
          0 []).drop 6) = .ok (some (r, rest)) ∧ r.key = [97] :=
  serializedCompactAll_index_invariant [Op.set [97] [120], Op.del [97]]
    (by intro op hop; fin_cases hop <;> simp [opKeyOK]) 0 [97] 6 (by rfl)

/-- C1: a `set k v` followed by any number of `set`s of other keys (with
arbitrary rollovers) leaves `get k = v`.  The starting state is any
well-formed state whose cache does not reach above the active segment (true
of every state the engine can be in), and `k` is a non-empty key as the data
model prescribes; the sizes make the first `set` succeed. -/
theorem claim_C1_last_write_wins (db : DBState) (k v : List Nat) (ops : List Op)
    (hWF : WF db) (hCB : CacheBounded db) (hk : k ≠ [])
    (hkl : k.length ≤ 255) (hvl : v.length ≤ 255)
    (hops : ∀ op ∈ ops, ∃ k' v', op = Op.set k' v' ∧ k' ≠ k) :
    ToyDB.get (runOps db (Op.set k v :: ops)) k = .ok (some v) := by
  have hval : validRecordB ⟨k, some v, false⟩ := by simp [validRecordB, hk, hkl, hvl]
  have hser := serialize_of_valid hval
  have hstep : ToyDB.set db k v = .ok (appendRecord db k (recBytes ⟨k, some v, false⟩)) := by
    unfold ToyDB.set
    rw [hser]
  have hbase : C1Inv (stepT db (Op.set k v)) k v := by
    show C1Inv (match ToyDB.set db k v with | .ok d => d | .error _ => db) k v
    rw [hstep]
    exact C1Inv_base hWF hCB hstep
  have hind : ∀ (ops' : List Op) (db0 : DBState),
      (∀ op ∈ ops', ∃ k' v', op = Op.set k' v' ∧ k' ≠ k) →
      C1Inv db0 k v → C1Inv (runOps db0 ops') k v := by
    intro ops'
    induction ops' with
    | nil => intro db0 _ h0; exact h0
    | cons op rest ih =>
      intro db0 hops0 h0
      obtain ⟨k', v', rfl, hne⟩ := hops0 op (by simp)
      exact ih _ (fun x hx => hops0 x (by simp [hx])) (C1Inv_set h0 hne)
  have hrun : runOps db (Op.set k v :: ops) = runOps (stepT db (Op.set k v)) ops := by
    unfold runOps
    rw [List.foldl_cons]
  rw [hrun]
  obtain ⟨hWF2, j, off, tail, hj, hnone, hhit, hdec⟩ :=
    hind ops (stepT db (Op.set k v)) hops hbase
  exact getFrom_of_hit hval hnone hhit hdec _ hj

theorem claim_C1_witness :
    ToyDB.get (runOps (ToyDB.init []) [Op.set [107] [118], Op.set [108] [119]]) [107]
      = .ok (some [118]) :=
  claim_C1_last_write_wins (ToyDB.init []) [107] [118] [Op.set [108] [119]]
    rfl (fun _ _ _ => rfl) (by decide) (by decide) (by decide)
    (by
      intro op hop
      fin_cases hop
      exact ⟨[108], [119], rfl, by decide⟩)

/-- The size condition of the round-trip claim: a put with key and value of
length 1..255, or a tombstone (no value) with key of length 1..255. -/
def validSized (r : ToyDBRecord) : Prop :=
  1 ≤ r.key.length ∧ r.key.length ≤ 255 ∧
    match r.tombstone, r.value with
    | false, some v => 1 ≤ v.length ∧ v.length ≤ 255
    | true, none => True
    | _, _ => False

/-- C5: for every record with valid-sized fields (a put with key and value
each of length 1..255, or a tombstone with key of length 1..255),
serialization succeeds and deserializing the produced byte string from
offset 0 yields exactly the record, consuming it entirely. -/
theorem claim_C5_round_trip (r : ToyDBRecord) (h : validSized r) :
    ∃ bs, ToyDBRecord.serialize r = .ok bs ∧
      ToyDBRecord.deserialize bs = .ok (some (r, [])) := by
  have hval : validRecordB r := by
    obtain ⟨h1, h2, h3⟩ := h
    rcases r with ⟨k, v, tb⟩
    have hk : k ≠ [] := by
      intro hc
      subst hc
      simp at h1
    cases tb <;> cases v <;> simp_all [validRecordB]
  refine ⟨recBytes r, serialize_of_valid hval, ?_⟩
  have := deserialize_recBytes hval []
  rwa [List.append_nil] at this

theorem claim_C5_witness :
    ∃ bs, ToyDBRecord.serialize ⟨[97], some [98], false⟩ = .ok bs ∧
      ToyDBRecord.deserialize bs = .ok (some (⟨[97], some [98], false⟩, [])) :=
  claim_C5_round_trip ⟨[97], some [98], false⟩ (by exact ⟨by decide, by decide, by decide⟩)

/-- C6: the spec says the serialized-size function returns `2 + len(key)`
for a tombstone and `4 + len(key) + len(value)` for a put, matching the
serializer's output length.  The code's `size_in_bytes` computes
`(2 + len(key)) + (2 + len(value))` unconditionally, so on a tombstone
(`value = None`) it raises `TypeError` (modelled as `none`) instead of
returning `2 + len(key)` — even though `serialize` emits exactly
`2 + len(key)` bytes for it.  The put case does match. Evaluated at
`Tombstone(b"a")` and `Put(b"a", b"b")`. -/
theorem claim_C6_size_tombstone_crash :
    ToyDBRecord.size_in_bytes ⟨[97], none, true⟩ = none ∧
    ToyDBRecord.serialize ⟨[97], none, true⟩ = .ok [2, 1, 97] ∧
    ([2, 1, 97] : List Nat).length = 2 + ([97] : List Nat).length ∧
    ToyDBRecord.size_in_bytes ⟨[97], some [98], false⟩ =
      some (4 + ([97] : List Nat).length + ([98] : List Nat).length) := by
  refine ⟨rfl, ?_, rfl, by simp [ToyDBRecord.size_in_bytes]⟩
  simp [ToyDBRecord.serialize, recBytes]

/-- C9: a key or value longer than 255 bytes makes serialization fail before
anything is written, so `set` (and `delete`, for the key) raise and leave
the segments and the index unchanged. -/
theorem claim_C9_oversize (db : DBState) (k v : List Nat) :
    (255 < k.length ∨ 255 < v.length →
      (∃ e, ToyDB.set db k v = .error e) ∧ stepT db (Op.set k v) = db) ∧
    (255 < k.length →
      (∃ e, ToyDB.delete db k = .error e) ∧ stepT db (Op.del k) = db) := by
  constructor
  · intro h
    have hser : ∃ e, ToyDBRecord.serialize ⟨k, some v, false⟩ = .error e := by
      unfold ToyDBRecord.serialize
      by_cases hk : k.length > 255
      · exact ⟨"ToyDBException: key longer than 255 bytes", by simp [hk]⟩
      · rcases h with h | h
        · omega
        · exact ⟨"ToyDBException: value longer than 255 bytes", by simp [hk, h]⟩
    obtain ⟨e, he⟩ := hser
    have hset : ToyDB.set db k v = .error e := by
      unfold ToyDB.set
      rw [he]
    refine ⟨⟨e, hset⟩, ?_⟩
    show (match ToyDB.set db k v with | .ok d => d | .error _ => db) = db
    rw [hset]
  · intro h
    have hser : ∃ e, ToyDBRecord.serialize ⟨k, none, true⟩ = .error e := by
      unfold ToyDBRecord.serialize
      exact ⟨"ToyDBException: key longer than 255 bytes", by simp [h]⟩
    obtain ⟨e, he⟩ := hser
    have hdel : ToyDB.delete db k = .error e := by
      unfold ToyDB.delete
      rw [he]
    refine ⟨⟨e, hdel⟩, ?_⟩
    show (match ToyDB.delete db k with | .ok d => d | .error _ => db) = db
    rw [hdel]

theorem claim_C9_witness :
    ((∃ e, ToyDB.set (ToyDB.init []) (List.replicate 256 97) [98] = .error e) ∧
      stepT (ToyDB.init []) (Op.set (List.replicate 256 97) [98]) = ToyDB.init []) ∧
    ((∃ e, ToyDB.delete (ToyDB.init []) (List.replicate 256 97) = .error e) ∧
      stepT (ToyDB.init []) (Op.del (List.replicate 256 97)) = ToyDB.init []) :=
  ⟨(claim_C9_oversize (ToyDB.init []) (List.replicate 256 97) [98]).1
      (Or.inl (by rw [List.length_replicate]; omega)),
    (claim_C9_oversize (ToyDB.init []) (List.replicate 256 97) [98]).2
      (by rw [List.length_replicate]; omega)⟩

theorem deserializeFrom_put_key_ne_nil {key? : Option (List Nat)} {s : List Nat}
    {r : ToyDBRecord} {rest : List Nat}
    (h : deserializeFrom key? s = .ok (some (r, rest))) (ht : r.tombstone = false) :
    r.key ≠ [] := by
  induction key?, s using deserializeFrom.induct with
  | case1 key? =>
    rw [deserializeFrom.eq_def] at h
    simp at h
  | case2 rest' len rest2 ih =>
    rw [deserializeFrom.eq_def] at h
    simp only [if_pos rfl, reduceIte] at h
    exact ih h
  | case3 rest' k hk =>
    rw [deserializeFrom.eq_def] at h
    simp [hk] at h
  | case4 rest' len rest2 ih =>
    rw [deserializeFrom.eq_def] at h
    simp only [if_pos rfl, reduceIte] at h
    exact ih h
  | case5 rest' h1 =>
    rw [deserializeFrom.eq_def] at h
    simp at h
  | case6 rest' k hk h1 =>
    rw [deserializeFrom.eq_def] at h
    simp [hk] at h
    obtain ⟨h2, _⟩ := h
    rw [← h2]
    simpa using hk
  | case7 rest' h1 =>
    rw [deserializeFrom.eq_def] at h
    simp at h
  | case8 key? rest' h1 h2 =>
    rw [deserializeFrom.eq_def] at h
    simp at h
    obtain ⟨h3, _⟩ := h
    rw [← h3] at ht
    simp at ht
  | case9 key? t rest' h1 h2 h3 =>
    rw [deserializeFrom.eq_def] at h
    simp [h1, h2, h3] at h

/-- C10: the deserializer never returns a put with an empty key.  A stream
that encodes a zero-length `KEY` field followed by a `VALUE` field fails
with the `VALUE` without `KEY` corruption error (zero-length pending keys
are falsy in Python and count as absent), and in general every successfully
parsed put has a non-empty key. -/
theorem claim_C10_no_empty_key_put :
    (∀ len rest, deserializeFrom none (0 :: 0 :: 1 :: len :: rest)
      = .error valueWithoutKeyMsg) ∧
    (∀ (s : List Nat) (r : ToyDBRecord) (rest : List Nat),
      ToyDBRecord.deserialize s = .ok (some (r, rest)) → r.tombstone = false →
        r.key ≠ []) := by
  constructor
  · intro len rest
    rw [deserializeFrom.eq_def]
    simp only [List.headD_cons, List.tail_cons, if_pos rfl, List.take_zero, List.drop_zero]
    rw [deserializeFrom.eq_def]
    simp
  · intro s r rest h ht
    exact deserializeFrom_put_key_ne_nil h ht

theorem claim_C10_witness :
    deserializeFrom none (0 :: 0 :: 1 :: 5 :: [7, 7]) = .error valueWithoutKeyMsg ∧
    (⟨[97], some [98], false⟩ : ToyDBRecord).key ≠ [] :=
  ⟨claim_C10_no_empty_key_put.1 5 [7, 7],
    claim_C10_no_empty_key_put.2 [0, 1, 97, 1, 1, 98] ⟨[97], some [98], false⟩ []
      (by
        have := @deserialize_recBytes ⟨[97], some [98], false⟩ (by decide) []
        simpa [ToyDBRecord.deserialize, recBytes] using this)
      rfl⟩

/-- C3: the claim says `get` is unchanged by `merge()` and the segment
count does not grow.  The code's `merge` cannot even complete on a database
that contains a tombstone: the sizing pass calls `size_in_bytes` on every
record, and on a tombstone that computes `len(None)` and raises `TypeError`
(after `set a x; delete a`, a single-segment database). -/
theorem claim_C3_merge_tombstone_crash :
    ToyDB.merge (runOps (ToyDB.init []) [Op.set [97] [120], Op.del [97]])
      = .error "TypeError: object of type NoneType has no len" := by
  have hdb : runOps (ToyDB.init []) [Op.set [97] [120], Op.del [97]] =
      { dataFileIndex := 0, segments := [[0, 1, 97, 1, 1, 120, 2, 1, 97]],
        cache := [(0, [([97], 6)])] } := by rfl
  have hparse : parseAll [0, 1, 97, 1, 1, 120, 2, 1, 97]
      = .ok [⟨[97], some [120], false⟩, ⟨[97], none, true⟩] := by
    have := @parseAll_flatten [⟨[97], some [120], false⟩, ⟨[97], none, true⟩] (by decide)
    simpa using this
  rw [hdb]
  unfold ToyDB.merge ToyDB.compact_all mergeCore
  simp [hparse, List.mapM, List.mapM.loop, mergeStep, sumSizes, recSize,
    ToyDBRecord.size_in_bytes, projectedSize, lookupA, Bind.bind, Except.bind,
    pure, Except.pure, List.foldlM, maxFileSize, upsert, flushPending]


/-- C4: after a restart (a fresh engine over the directory written by a
previous instance), `get` must return the previously set value.  The code's
`__init__` only probes file names and leaves the index empty, and `get`
never falls back to scanning, so `get` returns `None` although the segment
file still contains the record (here `set k v` then re-`init`). -/
theorem claim_C4_cold_start :
    ToyDB.get (runOps (ToyDB.init []) [Op.set [107] [118]]) [107] = .ok (some [118]) ∧
    (ToyDB.init ((runOps (ToyDB.init []) [Op.set [107] [118]]).segments)).segments
      = (runOps (ToyDB.init []) [Op.set [107] [118]]).segments ∧
    ToyDB.get (ToyDB.init ((runOps (ToyDB.init []) [Op.set [107] [118]]).segments)) [107]
      = .ok none := by
  refine ⟨?_, rfl, rfl⟩
  have hds := @deserialize_recBytes ⟨[107], some [118], false⟩ (by decide) []
  have hdb : runOps (ToyDB.init []) [Op.set [107] [118]] =
      { dataFileIndex := 0, segments := [recBytes ⟨[107], some [118], false⟩],
        cache := [(0, [([107], 0)])] } := by rfl
  rw [hdb]
  unfold ToyDB.get getFrom
  simp [cacheLookup, lookupA, readRecordAt]
  rw [List.append_nil] at hds
  simp [hds]

/-- The state reached by `set a x; set a <244-byte value>; set b y` on a
fresh engine: segment 0 sealed at 255 bytes with two records for the same
key, segment 1 active with one record. -/
def dbC7fixture : DBState :=
  ⟨1,
    [recBytes ⟨[97], some [120], false⟩ ++
      recBytes ⟨[97], some (List.replicate 244 121), false⟩,
      recBytes ⟨[98], some [99], false⟩],
    [(0, [([97], 6)]), (1, [([98], 0)])]⟩

set_option maxRecDepth 4000 in
/-- C7: the claim says `compact_all()` compacts exactly the sealed segments
`0 .. active_index - 1` and `compact(i)` rewrites segment `i` itself.  In
the code `if not index` treats index `0` like `None`, so `compact(0)`
resolves to the *active* segment: on a two-segment database whose sealed
segment 0 holds two records for the same key, `compact(0)` leaves segment 0
byte-for-byte unchanged (the duplicate survives) and rewrites the active
segment instead. -/
theorem claim_C7_compact_zero_redirect :
    compactTarget (runOps (ToyDB.init [])
        [Op.set [97] [120], Op.set [97] (List.replicate 244 121), Op.set [98] [99]])
      (some 0)
      = (runOps (ToyDB.init [])
          [Op.set [97] [120], Op.set [97] (List.replicate 244 121), Op.set [98] [99]]
        ).dataFileIndex ∧
    ∃ db', ToyDB.compact (runOps (ToyDB.init [])
        [Op.set [97] [120], Op.set [97] (List.replicate 244 121), Op.set [98] [99]])
        (some 0) = .ok db' ∧
      db'.segments.getD 0 []
        = recBytes ⟨[97], some [120], false⟩ ++
          recBytes ⟨[97], some (List.replicate 244 121), false⟩ := by
  have hdb : runOps (ToyDB.init [])
      [Op.set [97] [120], Op.set [97] (List.replicate 244 121), Op.set [98] [99]]
      = dbC7fixture := by rfl
  have hscan : compactScan none [] [] (recBytes ⟨[98], some [99], false⟩)
      = .ok ([([98], [99])], []) := by
    have hstep := @compactScan_record ⟨[98], some [99], false⟩ (by decide) [] [] []
    simp only [List.append_nil] at hstep
    rw [hstep]
    simp only [scanStep, Bool.false_eq_true, if_false, upsert, List.erase_nil]
    rw [compactScan.eq_def]
    rfl
  rw [hdb]
  refine ⟨rfl, dbC7fixture, ?_, rfl⟩
  unfold ToyDB.compact
  rw [if_pos (by decide)]
  rw [show dbC7fixture.segments.getD (compactTarget dbC7fixture (some 0)) []
    = recBytes ⟨[98], some [99], false⟩ from rfl]
  rw [hscan]
  rfl

/-- The state reached by `set f <250-byte>; set k "1"; set g <250-byte>;
set k "2"` on a fresh engine: the stale `k → "1"` sits alone in sealed
segment 1, the live `k → "2"` alone in the active segment 3. -/
def dbC2fixture : DBState :=
  ⟨3,
    [[0, 1, 102, 1, 250] ++ List.replicate 250 97,
      [0, 1, 107, 1, 1, 49],
      [0, 1, 103, 1, 250] ++ List.replicate 250 97,
      [0, 1, 107, 1, 1, 50]],
    [(0, [([102], 0)]), (1, [([107], 0)]), (2, [([103], 0)]), (3, [([107], 0)])]⟩

/-- The state `compact(1)` produces from `dbC2fixture`: segment 1 is
emptied, but its surviving record `k → "1"` is re-issued through `set`,
which appends it to the *active* segment 3 and repoints the index entry for
`k` there. -/
def dbC2compacted : DBState :=
  ⟨3,
    [[0, 1, 102, 1, 250] ++ List.replicate 250 97,
      [],
      [0, 1, 103, 1, 250] ++ List.replicate 250 97,
      [0, 1, 107, 1, 1, 50, 0, 1, 107, 1, 1, 49]],
    [(0, [([102], 0)]), (1, []), (2, [([103], 0)]), (3, [([107], 6)])]⟩

set_option maxRecDepth 8000 in
/-- C2: the claim says `get(k)` is unchanged by `compact(i)` for every
segment `i`, in particular when the compacted segment holds an older value
and another segment a newer one.  In the code `compact` re-issues the
surviving records of segment `i` through `set`, which appends them to the
*active* segment and repoints the index entry: with `k → "1"` stale in
sealed segment 1 and `k → "2"` live in the active segment 3, `get k`
returns `"2"` before `compact(1)` and `"1"` after it. -/
theorem claim_C2_compact_changes_get :
    ToyDB.get (runOps (ToyDB.init [])
        [Op.set [102] (List.replicate 250 97), Op.set [107] [49],
          Op.set [103] (List.replicate 250 97), Op.set [107] [50]]) [107]
      = .ok (some [50]) ∧
    ∃ db', ToyDB.compact (runOps (ToyDB.init [])
        [Op.set [102] (List.replicate 250 97), Op.set [107] [49],
          Op.set [103] (List.replicate 250 97), Op.set [107] [50]]) (some 1)
        = .ok db' ∧
      ToyDB.get db' [107] = .ok (some [49]) := by
  have hdb : runOps (ToyDB.init [])
      [Op.set [102] (List.replicate 250 97), Op.set [107] [49],
        Op.set [103] (List.replicate 250 97), Op.set [107] [50]] = dbC2fixture := by rfl
  have hds50 : deserializeFrom none [0, 1, 107, 1, 1, 50]
      = .ok (some (⟨[107], some [50], false⟩, [])) := by
    have h := @deserialize_recBytes ⟨[107], some [50], false⟩ (by decide) []
    rw [List.append_nil] at h
    exact h
  have hds49 : deserializeFrom none [0, 1, 107, 1, 1, 49]
      = .ok (some (⟨[107], some [49], false⟩, [])) := by
    have h := @deserialize_recBytes ⟨[107], some [49], false⟩ (by decide) []
    rw [List.append_nil] at h
    exact h
  have hscan : compactScan none [] [] [0, 1, 107, 1, 1, 49]
      = .ok ([([107], [49])], []) := by
    have hstep := @compactScan_record ⟨[107], some [49], false⟩ (by decide) [] [] []
    simp only [List.append_nil] at hstep
    rw [show ([0, 1, 107, 1, 1, 49] : List Nat)
      = recBytes ⟨[107], some [49], false⟩ from rfl]
    rw [hstep]
    simp only [scanStep, Bool.false_eq_true, if_false, upsert, List.erase_nil]
    rw [compactScan.eq_def]
    rfl
  rw [hdb]
  refine ⟨?_, dbC2compacted, ?_, ?_⟩
  · unfold ToyDB.get getFrom
    simp only [cacheLookup, lookupA, dbC2fixture]
    norm_num
    simp [readRecordAt, hds50]
  · unfold ToyDB.compact
    rw [if_pos (by decide)]
    rw [show dbC2fixture.segments.getD (compactTarget dbC2fixture (some 1)) []
      = [0, 1, 107, 1, 1, 49] from rfl]
    rw [hscan]
    rfl
  · unfold ToyDB.get getFrom
    simp only [cacheLookup, lookupA, dbC2compacted]
    norm_num
    simp [readRecordAt, hds49]

/-! ## The unserialized gather of `compact_all`

`ToyDB.compact_all` awaits `asyncio.gather` over its `compact(i)` calls
without serializing their re-issue phases.  Inside `ToyDB.set`, everything
from the rollover check up to and including
`byte_offset = os.path.getsize(self.file)` is synchronous; the first await
is the `aiofiles.open` that follows.  While one task sits suspended at that
open, the event loop may run another gathered task, whose own `getsize`
then still sees the file without the first task's pending record.  The
following definitions split `set` at exactly that await so one such
schedule can be executed. -/

/-- What a suspended `set` still has to do when it resumes: the serialized
record to append and the `byte_offset` it already captured. -/
structure PendingSet where
  key : List Nat
  sr : List Nat
  byteOffset : Nat
  deriving DecidableEq, Repr

/-- The synchronous prefix of `ToyDB.set`: serialize the record, roll the
active index over when the projected size exceeds `max_file_size`, and
capture `byte_offset` from the current file size.  Nothing is written yet:
the task suspends at the `aiofiles.open` that comes next. -/
def setSync (db : DBState) (key value : List Nat) :
    Except String (DBState × PendingSet) :=
  match ToyDBRecord.serialize ⟨key, some value, false⟩ with
  | .error e => .error e
  | .ok sr =>
    let cur := db.segments.getD db.dataFileIndex []
    if cur.length + sr.length > maxFileSize then
      .ok ({ db with
              dataFileIndex := db.dataFileIndex + 1,
              segments := db.segments ++ [[]] }, ⟨key, sr, 0⟩)
    else .ok (db, ⟨key, sr, cur.length⟩)

/-- The tail of `ToyDB.set` after the task resumes: append the serialized
record to the file that is active *now* (`self.file` is read afresh at the
open and at the cache update) and record the `byte_offset` captured before
the suspension. -/
def setResume (db : DBState) (p : PendingSet) : DBState :=
  let cur := db.segments.getD db.dataFileIndex []
  { db with
      segments := db.segments.set db.dataFileIndex (cur ++ p.sr),
      cache := cacheInsert db.cache db.dataFileIndex p.key p.byteOffset }

theorem set_append_length {l : List (List Nat)} {x y : List Nat} :
    (l ++ [x]).set l.length y = l ++ [y] := by
  induction l with
  | nil => rfl
  | cons a t ih => simp [List.set, ih]

/-- Run back-to-back with no other task scheduled in between, the two
phases are exactly the sequential `ToyDB.set`. -/
theorem setSync_resume_eq_set {db db1 : DBState} {k v : List Nat} {p : PendingSet}
    (hWF : WF db) (h : setSync db k v = .ok (db1, p)) :
    ToyDB.set db k v = .ok (setResume db1 p) := by
  have hWF' : db.segments.length = db.dataFileIndex + 1 := hWF
  unfold setSync at h
  cases hser : ToyDBRecord.serialize ⟨k, some v, false⟩ with
  | error e =>
    rw [hser] at h
    exact Except.noConfusion h
  | ok sr =>
    rw [hser] at h
    have h' : (if (db.segments.getD db.dataFileIndex []).length + sr.length > maxFileSize then
          Except.ok (({ db with
              dataFileIndex := db.dataFileIndex + 1,
              segments := db.segments ++ [[]] } : DBState), (⟨k, sr, 0⟩ : PendingSet))
        else Except.ok (db,
          (⟨k, sr, (db.segments.getD db.dataFileIndex []).length⟩ : PendingSet)))
        = Except.ok (db1, p) := h
    unfold ToyDB.set
    rw [hser]
    have happ : appendRecord db k sr
        = (if (db.segments.getD db.dataFileIndex []).length + sr.length > maxFileSize then
            ({ db with
                dataFileIndex := db.dataFileIndex + 1,
                segments := db.segments ++ [sr],
                cache := cacheInsert db.cache (db.dataFileIndex + 1) k 0 } : DBState)
          else { db with
                segments := db.segments.set db.dataFileIndex
                  ((db.segments.getD db.dataFileIndex []) ++ sr),
                cache := cacheInsert db.cache db.dataFileIndex k
                  (db.segments.getD db.dataFileIndex []).length }) := rfl
    by_cases hroll : (db.segments.getD db.dataFileIndex []).length + sr.length > maxFileSize
    · rw [if_pos hroll] at h'
      obtain ⟨hdb1, hp⟩ := Prod.mk.injEq .. ▸ Except.ok.inj h'
      subst hdb1 hp
      show Except.ok (appendRecord db k sr) = _
      rw [happ, if_pos hroll]
      have hres : setResume ({ db with
          dataFileIndex := db.dataFileIndex + 1,
          segments := db.segments ++ [[]] } : DBState) ⟨k, sr, 0⟩
          = { db with
              dataFileIndex := db.dataFileIndex + 1,
              segments := (db.segments ++ [[]]).set (db.dataFileIndex + 1)
                (((db.segments ++ [[]]).getD (db.dataFileIndex + 1) []) ++ sr),
              cache := cacheInsert db.cache (db.dataFileIndex + 1) k 0 } := rfl
      rw [hres]
      have hget : ((db.segments ++ [[]]).getD (db.dataFileIndex + 1) []) = ([] : List Nat) := by
        rw [show db.dataFileIndex + 1 = db.segments.length from hWF'.symm, getD_append_self]
      rw [hget, List.nil_append,
        show db.dataFileIndex + 1 = db.segments.length from hWF'.symm, set_append_length]
    · rw [if_neg hroll] at h'
      obtain ⟨hdb1, hp⟩ := Prod.mk.injEq .. ▸ Except.ok.inj h'
      subst hdb1 hp
      show Except.ok (appendRecord db k sr) = _
      rw [happ, if_neg hroll]
      rfl

/-- One realizable schedule of `compact_all`'s `asyncio.gather` on a
database with `data_file_index = 2` (tasks `compact(0)` — redirected to the
active segment 2 — and `compact(1)`), for the case where each task's scan
leaves exactly one surviving put and no tombstones:

1. both tasks run their read phases (touching distinct files, so their
   order is immaterial) and their synchronous mutations (unlink/touch of
   their target file and clearing its index slot);
2. task 0 runs the synchronous prefix of its one re-issued `set` and
   suspends at the `aiofiles.open`;
3. task 1, scheduled while task 0 is suspended, runs the synchronous
   prefix of its own re-issued `set` — its `byte_offset` still reads the
   file size without task 0's pending record — and suspends likewise;
4. task 0 resumes (write, close, cache update) and finishes;
5. task 1 resumes and finishes.

Any scan shape other than single-put segments falls outside this one
schedule and is reported as an error. -/
def compactAllRaced (db : DBState) : Except String DBState :=
  match compactScan none [] [] (db.segments.getD (compactTarget db (some 0)) []) with
  | .error e => .error e
  | .ok (values0, tombs0) =>
    match compactScan none [] [] (db.segments.getD 1 []) with
    | .error e => .error e
    | .ok (values1, tombs1) =>
      match values0, tombs0, values1, tombs1 with
      | [(k0, v0)], [], [(k1, v1)], [] =>
        match setSync { db with
            segments := (db.segments.set (compactTarget db (some 0)) []).set 1 [],
            cache := cacheClear (cacheClear db.cache (compactTarget db (some 0))) 1 } k0 v0 with
        | .error e => .error e
        | .ok (dba, p0) =>
          match setSync dba k1 v1 with
          | .error e => .error e
          | .ok (dbb, p1) => .ok (setResume (setResume dbb p0) p1)
      | _, _, _, _ => .error "schedule modelled for single-put segments only"

/-- The state reached by `set d <245-byte>; delete i; set a <250-byte>;
set b y` on a fresh engine: segment 0 sealed with a put and a tombstone,
segment 1 sealed with the single put `a`, segment 2 active with the single
put `b`. -/
def dbRaceFixture : DBState :=
  ⟨2,
    [[0, 1, 100, 1, 245] ++ List.replicate 245 1 ++ [2, 1, 105],
      [0, 1, 97, 1, 250] ++ List.replicate 250 120,
      [0, 1, 98, 1, 1, 121]],
    [(0, [([100], 0), ([105], 250)]), (1, [([97], 0)]), (2, [([98], 0)])]⟩

/-- The state the raced gather leaves: both re-issued records landed in the
active segment 2 in resume order, but both index entries carry the
`byte_offset` 0 captured before either write — so the entry for key `a`
points at the record of key `b`. -/
def dbRaced : DBState :=
  ⟨2,
    [[0, 1, 100, 1, 245] ++ List.replicate 245 1 ++ [2, 1, 105],
      [],
      [0, 1, 98, 1, 1, 121, 0, 1, 97, 1, 250] ++ List.replicate 250 120],
    [(0, [([100], 0), ([105], 250)]), (1, []), (2, [([98], 0), ([97], 0)])]⟩

set_option maxRecDepth 8000 in
/-- C8: the claim says that after any sequence of operations, every offset
index entry `(S, k) → off` points at a record whose key is `k`.  The
source's `compact_all` runs its compactions through an unserialized
`asyncio.gather`; in the realizable schedule `compactAllRaced` (both
re-issued `set`s capture `byte_offset` before either write lands, because
each suspends at the `aiofiles.open` that sits between the capture and the
write), the entry for key `a` ends up pointing at key `b`'s record.  The
`merge()` that triggered the gather then aborts on the tombstone in
segment 0 (`TypeError` in `size_in_bytes`) before `drop`, so the corrupt
index persists as the post-operation state, and `get a` returns `b`'s
value. -/
theorem claim_C8_raced_index_corruption :
    runOps (ToyDB.init []) [Op.set [100] (List.replicate 245 1), Op.del [105],
      Op.set [97] (List.replicate 250 120), Op.set [98] [121]] = dbRaceFixture ∧
    compactAllRaced dbRaceFixture = .ok dbRaced ∧
    mergeCore dbRaced = .error "TypeError: object of type NoneType has no len" ∧
    cacheLookup dbRaced.cache 2 [97] = some 0 ∧
    (∃ r rest, ToyDBRecord.deserialize ((dbRaced.segments.getD 2 []).drop 0)
      = .ok (some (r, rest)) ∧ r.key = [98] ∧ r.key ≠ [97]) ∧
    ToyDB.get dbRaced [97] = .ok (some [121]) := by
  have hscanB : compactScan none [] [] [0, 1, 98, 1, 1, 121]
      = .ok ([([98], [121])], []) := by
    rw [show ([0, 1, 98, 1, 1, 121] : List Nat)
      = recBytes ⟨[98], some [121], false⟩ from rfl]
    have hstep := @compactScan_record ⟨[98], some [121], false⟩ (by decide) [] [] []
    simp only [List.append_nil] at hstep
    rw [hstep]
    simp only [scanStep, Bool.false_eq_true, if_false, upsert, List.erase_nil]
    rw [compactScan.eq_def]
    rfl
  have hscanA : compactScan none [] [] ([0, 1, 97, 1, 250] ++ List.replicate 250 120)
      = .ok ([([97], List.replicate 250 120)], []) := by
    rw [show (([0, 1, 97, 1, 250] ++ List.replicate 250 120) : List Nat)
      = recBytes ⟨[97], some (List.replicate 250 120), false⟩ from rfl]
    have hstep := @compactScan_record ⟨[97], some (List.replicate 250 120), false⟩
      (by decide) [] [] []
    simp only [List.append_nil] at hstep
    rw [hstep]
    simp only [scanStep, Bool.false_eq_true, if_false, upsert, List.erase_nil]
    rw [compactScan.eq_def]
    rfl
  have hparse0 : parseAll ([0, 1, 100, 1, 245] ++ List.replicate 245 1 ++ [2, 1, 105])
      = .ok [⟨[100], some (List.replicate 245 1), false⟩, ⟨[105], none, true⟩] := by
    have h := @parseAll_flatten
      [⟨[100], some (List.replicate 245 1), false⟩, ⟨[105], none, true⟩] (by decide)
    exact h
  have hparse1 : parseAll ([] : List Nat) = .ok [] := by
    have h := @parseAll_flatten [] (by simp)
    exact h
  have hparse2 : parseAll ([0, 1, 98, 1, 1, 121, 0, 1, 97, 1, 250] ++ List.replicate 250 120)
      = .ok [⟨[98], some [121], false⟩, ⟨[97], some (List.replicate 250 120), false⟩] := by
    have h := @parseAll_flatten
      [⟨[98], some [121], false⟩, ⟨[97], some (List.replicate 250 120), false⟩] (by decide)
    exact h
  have hmap : dbRaced.segments.mapM parseAll
      = .ok [[⟨[100], some (List.replicate 245 1), false⟩, ⟨[105], none, true⟩],
          [], [⟨[98], some [121], false⟩, ⟨[97], some (List.replicate 250 120), false⟩]] := by
    rw [show dbRaced.segments
      = [([0, 1, 100, 1, 245] ++ List.replicate 245 1 ++ [2, 1, 105] : List Nat), [],
          ([0, 1, 98, 1, 1, 121, 0, 1, 97, 1, 250] ++ List.replicate 250 120 : List Nat)]
      from rfl]
    rw [List.mapM_cons, hparse0, List.mapM_cons, hparse1, List.mapM_cons, hparse2]
    rfl
  have hds98 : deserializeFrom none
      (0 :: 1 :: 98 :: 1 :: 1 :: 121 :: 0 :: 1 :: 97 :: 1 :: 250 :: List.replicate 250 120)
      = .ok (some (⟨[98], some [121], false⟩,
          [0, 1, 97, 1, 250] ++ List.replicate 250 120)) := by
    have h := @deserialize_recBytes ⟨[98], some [121], false⟩ (by decide)
      ([0, 1, 97, 1, 250] ++ List.replicate 250 120)
    exact h
  refine ⟨by rfl, ?_, ?_, rfl, ?_, ?_⟩
  · unfold compactAllRaced
    rw [show dbRaceFixture.segments.getD (compactTarget dbRaceFixture (some 0)) []
      = [0, 1, 98, 1, 1, 121] from rfl]
    rw [hscanB]
    rw [show dbRaceFixture.segments.getD 1 []
      = ([0, 1, 97, 1, 250] ++ List.replicate 250 120) from rfl]
    rw [hscanA]
    rfl
  · unfold mergeCore
    rw [hmap]
    rfl
  · refine ⟨⟨[98], some [121], false⟩, [0, 1, 97, 1, 250] ++ List.replicate 250 120,
      ?_, rfl, by decide⟩
    rw [show (dbRaced.segments.getD 2 []).drop 0
      = recBytes ⟨[98], some [121], false⟩ ++ ([0, 1, 97, 1, 250] ++ List.replicate 250 120)
      from rfl]
    exact @deserialize_recBytes ⟨[98], some [121], false⟩ (by decide)
      ([0, 1, 97, 1, 250] ++ List.replicate 250 120)
  · show (match cacheLookup dbRaced.cache 2 [97] with
      | some off => readRecordAt dbRaced 2 off
      | none => getFrom dbRaced [97] 1) = Except.ok (some [121])
    rw [show cacheLookup dbRaced.cache 2 [97] = some 0 from rfl]
    show readRecordAt dbRaced 2 0 = Except.ok (some [121])
    unfold readRecordAt
    rw [show (dbRaced.segments.getD 2 []).drop 0
      = 0 :: 1 :: 98 :: 1 :: 1 :: 121 :: 0 :: 1 :: 97 :: 1 :: 250 :: List.replicate 250 120
      from rfl]
    rw [hds98]
    rfl
